import Mathlib

/-!
# Breakout: a shallow embedding of `breakout.c`

The two globals of the program (`blocks`, `block_sprites`) form the record `Game`;
the locals of `main` that survive a loop iteration form the record `State`.

* C `int` values are `Int`, which is exact as long as no C operation overflows. In a run
  of the program every value stays far inside the range of `int` (coordinates inside the
  arena, directions `1` or `-1`, `1 <= pad_x <= 64`, `delay_count <= 4`). For a call of a
  resolver with arbitrary arguments the only addition is `pad_x + 3` of line 160; the
  statement about it assumes `pad_x + 3 <= INT_MAX`.
* `char` cells of `blocks` are `Int` (the code stores `0` and `1`); the `sprite`
  character of a cell is a `Char`.
* The pointer `grid_member` is `Option (Nat × Nat)`: `none` is the null pointer of the
  zero-initialised global, `some (i, j)` is `&blocks[i][j]`.
* A read of `block_sprites[y][x]` outside `8 × 68`, or through a null `grid_member`,
  has no defined result: the resolvers return `none` there.
* `getch()` is the per-iteration input `Key`.
-/

namespace Breakout

/-! ## Constants (`#define`s) -/

def BALL_DELAY : Int := 4
def MAX_X : Int := 67
def MAX_Y : Int := 24
def PAD_Y : Int := 23
def BLOCK_W : Nat := 17
def BLOCK_H : Nat := 4
def BLOCK_ROWS : Nat := 2
def BLOCK_COLS : Nat := 4

/-- The largest value of a C `int`, for the usual 32-bit `int`. -/
def INT_MAX : Int := 2147483647

/-! ## Data model -/

/-- One cell of the sprite grid: `struct BlockMap`. -/
structure BlockMap where
  sprite : Char
  grid_member : Option (Nat × Nat)
deriving DecidableEq, Repr

/-- The global `blocks[BLOCK_ROWS][BLOCK_COLS]`, indexed `[row][column]`. -/
abbrev Blocks := Nat → Nat → Int

/-- The global `block_sprites[BLOCK_ROWS * BLOCK_H][BLOCK_COLS * BLOCK_W]`. -/
abbrev Sprites := Nat → Nat → BlockMap

/-- The global variables of the program. -/
structure Game where
  blocks : Blocks
  block_sprites : Sprites

/-- The null character. -/
def NUL : Char := Char.ofNat 0

/-- The apostrophe, the glyph of a bottom corner. -/
def APOSTROPHE : Char := Char.ofNat 39

/-- Assignment `block_sprites[r][c].sprite = ch`. -/
def set_sprite (bs : Sprites) (r c : Nat) (ch : Char) : Sprites :=
  fun r1 c1 => if r1 = r ∧ c1 = c then { bs r1 c1 with sprite := ch } else bs r1 c1

/-- Assignment `block_sprites[r][c].grid_member = p`. -/
def set_grid_member (bs : Sprites) (r c : Nat) (p : Option (Nat × Nat)) : Sprites :=
  fun r1 c1 => if r1 = r ∧ c1 = c then { bs r1 c1 with grid_member := p } else bs r1 c1

/-- Assignment `blocks[i][j] = v`. -/
def set_block (b : Blocks) (i j : Nat) (v : Int) : Blocks :=
  fun i1 j1 => if i1 = i ∧ j1 = j then v else b i1 j1

/-! ## Sprite grid construction -/

/-- Body of the inner loop of `make_block` (lines 63-92) for the cell `(i, j)` of the
block whose top left corner is `(y, x)`. -/
def make_block_cell (y x i j : Nat) (bs : Sprites) : Sprites :=
  let bs1 :=
    if i = 0 then
      if j = 0 ∨ j = BLOCK_W - 1 then set_sprite bs (y + i) (x + j) '.'
      else set_sprite bs (y + i) (x + j) '-'
    else if i = BLOCK_H - 1 then
      if j = 0 ∨ j = BLOCK_W - 1 then set_sprite bs (y + i) (x + j) APOSTROPHE
      else set_sprite bs (y + i) (x + j) '-'
    else if j = 0 ∨ j = BLOCK_W - 1 then set_sprite bs (y + i) (x + j) '|'
    else set_sprite bs (y + i) (x + j) ' '
  set_grid_member bs1 (y + i) (x + j) (some (y / BLOCK_H, x / BLOCK_W))

/-- The function `make_block`: both loops, rows outside, columns inside. -/
def make_block (y x : Nat) (bs : Sprites) : Sprites :=
  (List.range BLOCK_H).foldl
    (fun acc i => (List.range BLOCK_W).foldl (fun acc1 j => make_block_cell y x i j acc1) acc) bs

/-- The function `break_block`: every sprite of the block becomes the null character;
`grid_member` is left as it was. -/
def break_block (y x : Nat) (bs : Sprites) : Sprites :=
  (List.range BLOCK_H).foldl
    (fun acc i => (List.range BLOCK_W).foldl (fun acc1 j => set_sprite acc1 (y + i) (x + j) NUL) acc) bs

/-- Body of the inner loop of `init_blocks` for block `(i, j)`. -/
def init_block (b : Blocks) (i j : Nat) (bs : Sprites) : Sprites :=
  if b i j = 0 then make_block (i * BLOCK_H) (j * BLOCK_W) bs
  else break_block (i * BLOCK_H) (j * BLOCK_W) bs

/-- The function `init_blocks`: rebuilds the sprite grid from the block flags. -/
def init_blocks (g : Game) : Game :=
  { g with
    block_sprites :=
      (List.range BLOCK_ROWS).foldl
        (fun acc i => (List.range BLOCK_COLS).foldl (fun acc1 j => init_block g.blocks i j acc1) acc)
        g.block_sprites }

/-! ## Collision resolvers -/

/-- The read `block_sprites[y][x]`; `none` outside the bounds of the array. -/
def sprite_at (g : Game) (y x : Int) : Option BlockMap :=
  if 0 ≤ y ∧ y < (BLOCK_ROWS * BLOCK_H : Nat) ∧ 0 ≤ x ∧ x < (BLOCK_COLS * BLOCK_W : Nat) then
    some (g.block_sprites y.toNat x.toNat)
  else none

/-- The block-edge branch shared by both resolvers (lines 147-150 and 164-167) once the two
upper-bound guards have passed: reads the cell, dereferences `grid_member`, and when the
owner flag is `0` and the sprite is `edge`, flips the direction and stores `1` in the owner.
The result is `none` when a read is out of bounds or `grid_member` is null, and
`some none` when the condition is false. -/
def hit_block (g : Game) (edge : Char) (direction next_y next_x : Int) :
    Option (Option (Int × Game)) :=
  match sprite_at g next_y next_x with
  | none => none
  | some cell =>
    match cell.grid_member with
    | none => none
    | some (i, j) =>
      if g.blocks i j = 0 ∧ cell.sprite = edge then
        some (some (direction * -1, { g with blocks := set_block g.blocks i j 1 }))
      else some none

/-- The function `get_direction_x`. Returns the new direction and the globals after the call. -/
def get_direction_x (g : Game) (x_direction next_y next_x : Int) : Option (Int × Game) :=
  if next_x ≥ MAX_X ∨ next_x ≤ 0 then some (x_direction * -1, g)
  else if next_y < (BLOCK_ROWS * BLOCK_H : Nat) ∧ next_x < (BLOCK_COLS * BLOCK_W : Nat) then
    match hit_block g '|' x_direction next_y next_x with
    | none => none
    | some (some r) => some r
    | some none => some (x_direction, g)
  else some (x_direction, g)

/-- The function `get_direction_y`. Returns the new direction and the globals after the call.
The sum `pad_x + 3` is taken in `Int`: it is the sum of line 160 when `pad_x + 3 <= INT_MAX`. -/
def get_direction_y (g : Game) (y_direction next_y next_x pad_x : Int) : Option (Int × Game) :=
  if next_y ≤ 0 ∨ (next_y = PAD_Y ∧ next_x ≥ pad_x ∧ next_x ≤ pad_x + 3) then
    some (y_direction * -1, g)
  else if next_y < (BLOCK_ROWS * BLOCK_H : Nat) ∧ next_x < (BLOCK_COLS * BLOCK_W : Nat) then
    match hit_block g '-' y_direction next_y next_x with
    | none => none
    | some (some r) => some r
    | some none => if next_y > MAX_Y then some (0, g) else some (y_direction, g)
  else if next_y > MAX_Y then some (0, g)
  else some (y_direction, g)

/-- The function `game_won`: `1` when no flag of `blocks` is `0`, else `0`. -/
def game_won (b : Blocks) : Int :=
  let zero_seen : Int :=
    (List.range BLOCK_ROWS).foldl
      (fun acc i => (List.range BLOCK_COLS).foldl (fun acc1 j => if b i j = 0 then 1 else acc1) acc) 0
  if zero_seen ≠ 0 then 0 else 1

/-! ## Input -/

/-- The value of `getch()` as far as the `switch` of `get_keypress` tells it apart. -/
inductive Key where
  | left
  | right
  | other
deriving DecidableEq, Repr

/-- The function `get_keypress`, with the key read by `getch()` as an argument. -/
def get_keypress (key : Key) (pad_x : Int) : Int :=
  match key with
  | Key.left => if pad_x > 1 then -1 else 0
  | Key.right => if pad_x < MAX_X - 3 then 1 else 0
  | Key.other => 0

/-! ## Main loop -/

/-- Terminal outcome of the loop. -/
inductive GameResult where
  | Playing
  | Won
  | Lost
deriving DecidableEq, Repr

/-- The variables of `main` that live across iterations, and the globals. -/
structure State where
  ball_x : Int
  ball_y : Int
  pad_x : Int
  x_direction : Int
  y_direction : Int
  delay_count : Int
  game : Game

/-- The zero-initialised globals at program start. -/
def start_game : Game :=
  { blocks := fun _ _ => 0, block_sprites := fun _ _ => { sprite := NUL, grid_member := none } }

/-- The initial values of `main` (lines 230-239). -/
def initial : State :=
  { ball_x := 0, ball_y := (BLOCK_H * BLOCK_ROWS : Nat), pad_x := 20,
    x_direction := 1, y_direction := 1, delay_count := 1, game := start_game }

/-- Lines 312-322: the win check, then the paddle input and the delay timer. -/
def finish_tick (key : Key) (s : State) : GameResult × State :=
  if game_won s.game.blocks ≠ 0 then (GameResult.Won, s)
  else
    (GameResult.Playing,
      { s with pad_x := s.pad_x + get_keypress key s.pad_x, delay_count := s.delay_count + 1 })

/-- One iteration of the `while (1)` loop of `main` (lines 257-323), drawing left out.
`none` when a resolver's read is undefined. -/
def tick (key : Key) (s : State) : Option (GameResult × State) :=
  let g0 := init_blocks s.game
  let next_x := s.ball_x + s.x_direction
  let next_y := s.ball_y + s.y_direction
  if s.delay_count ≥ BALL_DELAY then
    match get_direction_x g0 s.x_direction next_y next_x with
    | none => none
    | some (next_x_dir, g1) =>
      let ball_x := if next_x_dir = s.x_direction then s.ball_x + s.x_direction else s.ball_x
      match get_direction_y g1 s.y_direction next_y next_x s.pad_x with
      | none => none
      | some (next_y_dir, g2) =>
        if next_y_dir = 0 then
          some (GameResult.Lost, { s with ball_x := ball_x, x_direction := next_x_dir, game := g2 })
        else
          let ball_y := if next_y_dir = s.y_direction then s.ball_y + s.y_direction else s.ball_y
          some (finish_tick key
            { s with ball_x := ball_x, ball_y := ball_y, x_direction := next_x_dir,
                     y_direction := next_y_dir, delay_count := 0, game := g2 })
  else some (finish_tick key { s with game := g0 })

/-- The loop run on a list of keys, one per iteration; it stops at the first iteration
that ends the game, and the keys left over are not read. -/
def run (s : State) : List Key → Option (GameResult × State)
  | [] => some (GameResult.Playing, s)
  | key :: keys =>
    match tick key s with
    | none => none
    | some (GameResult.Playing, s1) => run s1 keys
    | some (r, s1) => some (r, s1)

/-- Line 320 alone: `pad_x += get_keypress(pad_x)`. -/
def move_paddle (pad_x : Int) (key : Key) : Int :=
  pad_x + get_keypress key pad_x

/-! ## Auxiliary definitions for the proofs -/

/-- The glyph that `make_block` writes at row `i`, column `j` of a block. -/
def glyph (i j : Nat) : Char :=
  if i = 0 then (if j = 0 ∨ j = BLOCK_W - 1 then '.' else '-')
  else if i = BLOCK_H - 1 then (if j = 0 ∨ j = BLOCK_W - 1 then APOSTROPHE else '-')
  else if j = 0 ∨ j = BLOCK_W - 1 then '|'
  else ' '

/-- A sprite grid with the cell `(r, c)` replaced by `f` of its old value. -/
def upd_cell (bs : Sprites) (r c : Nat) (f : BlockMap → BlockMap) : Sprites :=
  fun r1 c1 => if r1 = r ∧ c1 = c then f (bs r1 c1) else bs r1 c1

/-- A sprite grid with every cell of the `m × n` rectangle at `(y, x)` replaced by `F` of its
position in the rectangle and its old value. -/
def upd_rect (bs : Sprites) (y x m n : Nat) (F : Nat → Nat → BlockMap → BlockMap) : Sprites :=
  fun r c => if y ≤ r ∧ r < y + m ∧ x ≤ c ∧ c < x + n then F (r - y) (c - x) (bs r c) else bs r c

/-- The sprite cell that `init_blocks` leaves at `(r, c)` when the flags are `b` and the
cell held `old` before. -/
def built_cell (b : Blocks) (r c : Nat) (old : BlockMap) : BlockMap :=
  if b (r / 4) (c / 17) = 0 then ⟨glyph (r % 4) (c % 17), some (r / 4, c / 17)⟩
  else { old with sprite := NUL }

/-- The globals at the top of a loop iteration, after `init_blocks`, when the flags are `b`:
the sprite grid was first built by `init_blocks` at program start, where every flag is `0`
(line 33), and has now been rebuilt from `b`. -/
def built (b : Blocks) : Game :=
  init_blocks { blocks := b, block_sprites := (init_blocks start_game).block_sprites }

/-- The globals holding the flags `b` and the sprite grid last rebuilt when the flags were
`b0`: what `get_direction_y` sees after `get_direction_x` has run in the same iteration. -/
def stale (b0 b : Blocks) : Game :=
  { blocks := b, block_sprites := (built b0).block_sprites }

/-- The number of broken blocks. -/
def broken_count (b : Blocks) : Nat :=
  (Finset.filter (fun p : Fin 2 × Fin 4 => b p.1.val p.2.val ≠ 0) Finset.univ).card

/-- The paddle position after the keys of a list, one per iteration of the loop. -/
def paddle_after (pad_x : Int) (keys : List Key) : Int :=
  keys.foldl move_paddle pad_x

/-- What a call of a resolver may do to the globals: nothing, or store `1` in one flag
that was `0`. The sprite grid is never written. -/
def Effect (g g1 : Game) : Prop :=
  g1.block_sprites = g.block_sprites ∧
    (g1.blocks = g.blocks ∨ ∃ i j, g.blocks i j = 0 ∧ g1.blocks = set_block g.blocks i j 1)

/-- A broken flag of `g` has the same value in `g1`. -/
def Keeps (g g1 : Game) : Prop :=
  ∀ i j, g.blocks i j ≠ 0 → g1.blocks i j = g.blocks i j

/-- The flags of all `BLOCK_ROWS × BLOCK_COLS` blocks are non-zero. -/
def AllBroken (b : Blocks) : Prop :=
  ∀ i j, i < BLOCK_ROWS → j < BLOCK_COLS → b i j ≠ 0

/-- A sample array of flags: block `(0, 0)` broken, the others intact. -/
def first_broken : Blocks :=
  fun i j => if i = 0 ∧ j = 0 then 1 else 0

/-- A sample array of flags: every block intact, as at program start. -/
def intact : Blocks :=
  fun _ _ => 0

/-- Every cell of the sprite grid records its owner: `grid_member` of the cell `(r, c)` is
`&blocks[r / 4][c / 17]`, as `make_block` sets it (line 92). -/
def Owned (g : Game) : Prop :=
  ∀ r c, r < 8 → c < 68 → (g.block_sprites r c).grid_member = some (r / 4, c / 17)

/-- The invariant of the main loop: the ball is inside the arena, both directions are `1` or
`-1`, the ball is in column `0` only in its starting position, and the sprite grid that
`init_blocks` builds at the top of the next iteration records every owner. -/
def Inv (s : State) : Prop :=
  0 ≤ s.ball_x ∧ s.ball_x ≤ MAX_X - 1 ∧ 1 ≤ s.ball_y ∧ s.ball_y ≤ MAX_Y ∧
  (s.x_direction = 1 ∨ s.x_direction = -1) ∧ (s.y_direction = 1 ∨ s.y_direction = -1) ∧
  (s.ball_x = 0 → s.x_direction = 1 ∧ s.ball_y = 8 ∧ s.y_direction = 1) ∧
  Owned (init_blocks s.game)

/-- A sample state: the loop after the three iterations with keys left, left, right. -/
def after_three : State :=
  { initial with pad_x := 19, delay_count := 4,
                 game := init_blocks (init_blocks (init_blocks start_game)) }

/-- The state of the first `n <= 3` iterations: the ball still in its starting position, all
blocks intact, and the delay timer at `n + 1`. -/
def Early (n : Nat) (s : State) : Prop :=
  s.ball_x = 0 ∧ s.x_direction = 1 ∧ s.ball_y = 8 ∧ s.y_direction = 1 ∧
  s.delay_count = (n : Int) + 1 ∧ n ≤ 3 ∧ ∀ i j, s.game.blocks i j = 0

/-- A sample list of keys: nine times left, then fifty iterations without a key. After these
`59` iterations the ball is at `(14, 22)` going down and right, and the paddle is at `11`. -/
def keys_to_paddle_row : List Key :=
  List.replicate 9 Key.left ++ List.replicate 50 Key.other

/-- At most one flag differs between the arrays `b` and `b1`. -/
def ChangesAtMostOne (b b1 : Blocks) : Prop :=
  ∀ i1 j1 i2 j2, b1 i1 j1 ≠ b i1 j1 → b1 i2 j2 ≠ b i2 j2 → i1 = i2 ∧ j1 = j2

/-! ## Sprite grid lemmas -/

theorem make_block_cell_eq (y x i j : Nat) (bs : Sprites) :
    make_block_cell y x i j bs
      = upd_cell bs (y + i) (x + j) (fun _ => ⟨glyph i j, some (y / BLOCK_H, x / BLOCK_W)⟩) := by
  funext r c
  unfold make_block_cell upd_cell glyph set_grid_member
  by_cases h : r = y + i ∧ c = x + j
  · simp only [h, and_self, if_true]
    split_ifs <;> simp [set_sprite]
  · simp only [h, if_false]
    split_ifs <;> simp [set_sprite, h]

theorem set_sprite_eq (bs : Sprites) (r c : Nat) (ch : Char) :
    set_sprite bs r c ch = upd_cell bs r c (fun cell => { cell with sprite := ch }) := rfl

theorem foldl_upd_row (F : Nat → BlockMap → BlockMap) (R x : Nat) (bs : Sprites) (n : Nat) :
    (List.range n).foldl (fun acc j => upd_cell acc R (x + j) (F j)) bs
      = upd_rect bs R x 1 n (fun _ j => F j) := by
  induction n with
  | zero =>
    funext r c
    have h : ¬ (R ≤ r ∧ r < R + 1 ∧ x ≤ c ∧ c < x + 0) := by omega
    simp only [List.range_zero, List.foldl_nil, upd_rect, if_neg h]
  | succ n ih =>
    rw [List.range_succ, List.foldl_append, ih]
    funext r c
    simp only [List.foldl_cons, List.foldl_nil, upd_cell, upd_rect]
    by_cases h1 : r = R ∧ c = x + n
    · obtain ⟨rfl, rfl⟩ := h1
      simp
    · by_cases h2 : R ≤ r ∧ r < R + 1 ∧ x ≤ c ∧ c < x + n
      · have h3 : R ≤ r ∧ r < R + 1 ∧ x ≤ c ∧ c < x + (n + 1) := by omega
        simp [h1, h2, h3]
      · have h3 : ¬ (R ≤ r ∧ r < R + 1 ∧ x ≤ c ∧ c < x + (n + 1)) := by omega
        simp [h1, h2, h3]

theorem foldl_upd_rect (F : Nat → Nat → BlockMap → BlockMap) (y x n : Nat) (bs : Sprites) (m : Nat) :
    (List.range m).foldl
        (fun acc i => (List.range n).foldl (fun acc1 j => upd_cell acc1 (y + i) (x + j) (F i j)) acc) bs
      = upd_rect bs y x m n F := by
  induction m with
  | zero =>
    funext r c
    have h : ¬ (y ≤ r ∧ r < y + 0 ∧ x ≤ c ∧ c < x + n) := by omega
    simp only [List.range_zero, List.foldl_nil, upd_rect, if_neg h]
  | succ m ih =>
    rw [List.range_succ, List.foldl_append, ih]
    funext r c
    simp only [List.foldl_cons, List.foldl_nil, foldl_upd_row, upd_rect]
    by_cases h1 : r = y + m
    · subst h1
      by_cases h2 : x ≤ c ∧ c < x + n
      · simp [h2]
      · have h3 : ¬ (x ≤ c ∧ c < x + n) := h2
        simp only [not_and, not_lt] at h2
        simp [h3]
    · by_cases h2 : y ≤ r ∧ r < y + m ∧ x ≤ c ∧ c < x + n
      · have h3 : y ≤ r ∧ r < y + (m + 1) ∧ x ≤ c ∧ c < x + n := by omega
        have h4 : ¬ (y + m ≤ r ∧ r < y + m + 1 ∧ x ≤ c ∧ c < x + n) := by omega
        simp [h2, h3, h4]
      · have h3 : ¬ (y ≤ r ∧ r < y + (m + 1) ∧ x ≤ c ∧ c < x + n) := by omega
        have h4 : ¬ (y + m ≤ r ∧ r < y + m + 1 ∧ x ≤ c ∧ c < x + n) := by omega
        simp [h2, h3, h4]

theorem make_block_eq (y x : Nat) (bs : Sprites) :
    make_block y x bs
      = upd_rect bs y x BLOCK_H BLOCK_W (fun i j _ => ⟨glyph i j, some (y / BLOCK_H, x / BLOCK_W)⟩) := by
  unfold make_block
  simp only [make_block_cell_eq]
  exact foldl_upd_rect (fun i j _ => ⟨glyph i j, some (y / BLOCK_H, x / BLOCK_W)⟩) y x BLOCK_W bs BLOCK_H

theorem break_block_eq (y x : Nat) (bs : Sprites) :
    break_block y x bs
      = upd_rect bs y x BLOCK_H BLOCK_W (fun _ _ cell => { cell with sprite := NUL }) := by
  unfold break_block
  simp only [set_sprite_eq]
  exact foldl_upd_rect (fun _ _ cell => { cell with sprite := NUL }) y x BLOCK_W bs BLOCK_H


theorem init_block_eq (b : Blocks) (i j : Nat) (bs : Sprites) :
    init_block b i j bs
      = upd_rect bs (i * 4) (j * 17) 4 17
          (fun i1 j1 cell =>
            if b i j = 0 then ⟨glyph i1 j1, some (i, j)⟩ else { cell with sprite := NUL }) := by
  unfold init_block
  rw [make_block_eq, break_block_eq]
  simp only [BLOCK_H, BLOCK_W]
  have hi : i * 4 / 4 = i := by omega
  have hj : j * 17 / 17 = j := by omega
  rw [hi, hj]
  by_cases h : b i j = 0
  · simp only [if_pos h]
  · simp only [if_neg h]

theorem foldl_init_block_row (b : Blocks) (i : Nat) (bs : Sprites) (n : Nat) :
    (List.range n).foldl (fun acc j => init_block b i j acc) bs
      = fun r c =>
          if i * 4 ≤ r ∧ r < i * 4 + 4 ∧ c < n * 17 then built_cell b r c (bs r c) else bs r c := by
  induction n with
  | zero =>
    funext r c
    have h : ¬ (i * 4 ≤ r ∧ r < i * 4 + 4 ∧ c < 0 * 17) := by omega
    simp only [List.range_zero, List.foldl_nil, if_neg h]
  | succ n ih =>
    rw [List.range_succ, List.foldl_append, ih]
    funext r c
    simp only [List.foldl_cons, List.foldl_nil, init_block_eq, upd_rect]
    by_cases h1 : i * 4 ≤ r ∧ r < i * 4 + 4 ∧ n * 17 ≤ c ∧ c < n * 17 + 17
    · have h2 : ¬ (i * 4 ≤ r ∧ r < i * 4 + 4 ∧ c < n * 17) := by omega
      have h3 : i * 4 ≤ r ∧ r < i * 4 + 4 ∧ c < (n + 1) * 17 := by omega
      have hr : r / 4 = i := by omega
      have hc : c / 17 = n := by omega
      have hr1 : r - i * 4 = r % 4 := by omega
      have hc1 : c - n * 17 = c % 17 := by omega
      simp only [if_pos h1, if_neg h2, if_pos h3, built_cell, hr, hc, hr1, hc1]
    · by_cases h2 : i * 4 ≤ r ∧ r < i * 4 + 4 ∧ c < n * 17
      · have h3 : i * 4 ≤ r ∧ r < i * 4 + 4 ∧ c < (n + 1) * 17 := by omega
        simp only [if_neg h1, if_pos h2, if_pos h3]
      · have h3 : ¬ (i * 4 ≤ r ∧ r < i * 4 + 4 ∧ c < (n + 1) * 17) := by omega
        simp only [if_neg h1, if_neg h2, if_neg h3]

theorem foldl_init_block_grid (b : Blocks) (bs : Sprites) (n m : Nat) :
    (List.range m).foldl
        (fun acc i => (List.range n).foldl (fun acc1 j => init_block b i j acc1) acc) bs
      = fun r c => if r < m * 4 ∧ c < n * 17 then built_cell b r c (bs r c) else bs r c := by
  induction m with
  | zero =>
    funext r c
    have h : ¬ (r < 0 * 4 ∧ c < n * 17) := by omega
    simp only [List.range_zero, List.foldl_nil, if_neg h]
  | succ m ih =>
    rw [List.range_succ, List.foldl_append, ih]
    funext r c
    simp only [List.foldl_cons, List.foldl_nil, foldl_init_block_row]
    by_cases h1 : m * 4 ≤ r ∧ r < m * 4 + 4 ∧ c < n * 17
    · have h2 : ¬ (r < m * 4 ∧ c < n * 17) := by omega
      have h3 : r < (m + 1) * 4 ∧ c < n * 17 := by omega
      simp only [if_pos h1, if_neg h2, if_pos h3]
    · by_cases h2 : r < m * 4 ∧ c < n * 17
      · have h3 : r < (m + 1) * 4 ∧ c < n * 17 := by omega
        simp only [if_neg h1, if_pos h2, if_pos h3]
      · have h3 : ¬ (r < (m + 1) * 4 ∧ c < n * 17) := by omega
        simp only [if_neg h1, if_neg h2, if_neg h3]

theorem init_blocks_blocks (g : Game) : (init_blocks g).blocks = g.blocks := rfl

theorem init_blocks_sprites (g : Game) (r c : Nat) (hr : r < 8) (hc : c < 68) :
    (init_blocks g).block_sprites r c = built_cell g.blocks r c (g.block_sprites r c) := by
  unfold init_blocks
  simp only [BLOCK_ROWS, BLOCK_COLS]
  rw [foldl_init_block_grid]
  have h : r < 2 * 4 ∧ c < 4 * 17 := by omega
  simp only [if_pos h]

/-! ## Resolver lemmas -/

theorem built_blocks (b : Blocks) : (built b).blocks = b := rfl

theorem built_sprites (b : Blocks) (r c : Nat) (hr : r < 8) (hc : c < 68) :
    (built b).block_sprites r c
      = ⟨if b (r / 4) (c / 17) = 0 then glyph (r % 4) (c % 17) else NUL, some (r / 4, c / 17)⟩ := by
  unfold built
  rw [init_blocks_sprites _ r c hr hc, init_blocks_sprites _ r c hr hc]
  simp only [built_cell, start_game]
  by_cases h : b (r / 4) (c / 17) = 0
  · simp only [if_pos h]
  · simp [if_neg h]

theorem sprite_at_eq (g : Game) (y x : Int) (hy0 : 0 ≤ y) (hy : y < 8) (hx0 : 0 ≤ x) (hx : x < 68) :
    sprite_at g y x = some (g.block_sprites y.toNat x.toNat) := by
  unfold sprite_at
  simp only [BLOCK_ROWS, BLOCK_H, BLOCK_COLS, BLOCK_W]
  rw [if_pos]
  refine ⟨hy0, ?_, hx0, ?_⟩ <;> norm_num <;> assumption

/-- The block-edge branch on a grid whose cell records the owner `(i, j)`. -/
theorem hit_block_eq (g : Game) (edge : Char) (d y x : Int) (i j : Nat)
    (hy0 : 0 ≤ y) (hy : y < 8) (hx0 : 0 ≤ x) (hx : x < 68)
    (ho : (g.block_sprites y.toNat x.toNat).grid_member = some (i, j)) :
    hit_block g edge d y x
      = if g.blocks i j = 0 ∧ (g.block_sprites y.toNat x.toNat).sprite = edge then
          some (some (-d, { g with blocks := set_block g.blocks i j 1 }))
        else some none := by
  unfold hit_block
  rw [sprite_at_eq g y x hy0 hy hx0 hx]
  simp only [ho, mul_neg, mul_one]

theorem get_direction_x_wall (g : Game) (d y x : Int) (h : x ≥ MAX_X ∨ x ≤ 0) :
    get_direction_x g d y x = some (-d, g) := by
  unfold get_direction_x
  rw [if_pos h]; simp

theorem get_direction_y_flip (g : Game) (d y x p : Int)
    (h : y ≤ 0 ∨ (y = PAD_Y ∧ x ≥ p ∧ x ≤ p + 3)) :
    get_direction_y g d y x p = some (-d, g) := by
  unfold get_direction_y
  rw [if_pos h]; simp

/-- Below the block region the second branch of `get_direction_y` is skipped. -/
theorem get_direction_y_low (g : Game) (d y x p : Int)
    (h : ¬ (y ≤ 0 ∨ (y = PAD_Y ∧ x ≥ p ∧ x ≤ p + 3))) (hy : 8 ≤ y) :
    get_direction_y g d y x p = some (if y > MAX_Y then 0 else d, g) := by
  unfold get_direction_y
  rw [if_neg h, if_neg]
  · split_ifs <;> rfl
  · simp only [BLOCK_ROWS, BLOCK_H]
    intro h1
    have := h1.1
    norm_num at this
    omega


theorem effect_refl (g : Game) : Effect g g := ⟨rfl, Or.inl rfl⟩

theorem hit_block_effect (g : Game) (edge : Char) (d y x : Int) (r : Int × Game)
    (h : hit_block g edge d y x = some (some r)) : Effect g r.2 := by
  unfold hit_block at h
  cases hs : sprite_at g y x with
  | none => simp [hs] at h
  | some cell =>
    simp only [hs] at h
    cases ho : cell.grid_member with
    | none => simp [ho] at h
    | some p =>
      obtain ⟨i, j⟩ := p
      simp only [ho] at h
      by_cases hc : g.blocks i j = 0 ∧ cell.sprite = edge
      · rw [if_pos hc] at h
        simp only [Option.some.injEq] at h
        subst h
        exact ⟨rfl, Or.inr ⟨i, j, hc.1, rfl⟩⟩
      · rw [if_neg hc] at h
        simp at h

theorem get_direction_x_effect (g : Game) (d y x : Int) (r : Int × Game)
    (h : get_direction_x g d y x = some r) : Effect g r.2 := by
  unfold get_direction_x at h
  split_ifs at h with h1 h2
  · simp only [Option.some.injEq] at h; subst h; exact effect_refl g
  · cases hh : hit_block g '|' d y x with
    | none => simp [hh] at h
    | some o =>
      cases o with
      | none => simp only [hh, Option.some.injEq] at h; subst h; exact effect_refl g
      | some r1 =>
        simp only [hh, Option.some.injEq] at h; subst h
        exact hit_block_effect g _ d y x r1 hh
  · simp only [Option.some.injEq] at h; subst h; exact effect_refl g

theorem get_direction_y_effect (g : Game) (d y x p : Int) (r : Int × Game)
    (h : get_direction_y g d y x p = some r) : Effect g r.2 := by
  unfold get_direction_y at h
  by_cases h1 : y ≤ 0 ∨ (y = PAD_Y ∧ x ≥ p ∧ x ≤ p + 3)
  · rw [if_pos h1] at h
    simp only [Option.some.injEq] at h; subst h; exact effect_refl g
  · rw [if_neg h1] at h
    by_cases h2 : y < (BLOCK_ROWS * BLOCK_H : Nat) ∧ x < (BLOCK_COLS * BLOCK_W : Nat)
    · rw [if_pos h2] at h
      cases hh : hit_block g '-' d y x with
      | none => simp [hh] at h
      | some o =>
        cases o with
        | none =>
          simp only [hh] at h
          by_cases h3 : y > MAX_Y
          · rw [if_pos h3] at h
            simp only [Option.some.injEq] at h; subst h; exact effect_refl g
          · rw [if_neg h3] at h
            simp only [Option.some.injEq] at h; subst h; exact effect_refl g
        | some r1 =>
          simp only [hh, Option.some.injEq] at h; subst h
          exact hit_block_effect g _ d y x r1 hh
    · rw [if_neg h2] at h
      by_cases h3 : y > MAX_Y
      · rw [if_pos h3] at h
        simp only [Option.some.injEq] at h; subst h; exact effect_refl g
      · rw [if_neg h3] at h
        simp only [Option.some.injEq] at h; subst h; exact effect_refl g

/-- A broken flag keeps its value through an effect. -/
theorem effect_keeps (g g1 : Game) (h : Effect g g1) (i j : Nat) (hb : g.blocks i j ≠ 0) :
    g1.blocks i j = g.blocks i j := by
  rcases h.2 with h1 | ⟨a, c, h0, h1⟩
  · rw [h1]
  · rw [h1]
    unfold set_block
    by_cases hc : i = a ∧ j = c
    · obtain ⟨rfl, rfl⟩ := hc
      exact absurd h0 hb
    · rw [if_neg hc]

/-! ## Main loop lemmas -/

theorem tick_idle (key : Key) (s : State) (h : ¬ s.delay_count ≥ BALL_DELAY) :
    tick key s = some (finish_tick key { s with game := init_blocks s.game }) := by
  unfold tick
  simp only [if_neg h]

theorem tick_physics (key : Key) (s : State) (dx dy : Int) (g1 g2 : Game)
    (h : s.delay_count ≥ BALL_DELAY)
    (hx : get_direction_x (init_blocks s.game) s.x_direction (s.ball_y + s.y_direction)
      (s.ball_x + s.x_direction) = some (dx, g1))
    (hy : get_direction_y g1 s.y_direction (s.ball_y + s.y_direction)
      (s.ball_x + s.x_direction) s.pad_x = some (dy, g2)) :
    tick key s =
      if dy = 0 then
        some (GameResult.Lost,
          { s with ball_x := if dx = s.x_direction then s.ball_x + s.x_direction else s.ball_x,
                   x_direction := dx, game := g2 })
      else
        some (finish_tick key
          { s with ball_x := if dx = s.x_direction then s.ball_x + s.x_direction else s.ball_x,
                   ball_y := if dy = s.y_direction then s.ball_y + s.y_direction else s.ball_y,
                   x_direction := dx, y_direction := dy, delay_count := 0, game := g2 }) := by
  unfold tick
  simp only [if_pos h, hx, hy]

theorem keeps_trans (g g1 g2 : Game) (h1 : Keeps g g1) (h2 : Keeps g1 g2) : Keeps g g2 := by
  intro i j hb
  have e1 := h1 i j hb
  have e2 := h2 i j (by rw [e1]; exact hb)
  rw [e2, e1]

/-- Every iteration is the win check and input step applied to an intermediate state with
the same paddle, or a loss with the same paddle. -/
theorem tick_inv (key : Key) (s : State) (r : GameResult) (s1 : State)
    (h : tick key s = some (r, s1)) :
    ∃ m : State, m.pad_x = s.pad_x ∧ Keeps s.game m.game ∧
      ((r = GameResult.Lost ∧ s1 = m) ∨ (r, s1) = finish_tick key m) := by
  by_cases hd : s.delay_count ≥ BALL_DELAY
  · cases hx : get_direction_x (init_blocks s.game) s.x_direction (s.ball_y + s.y_direction)
        (s.ball_x + s.x_direction) with
    | none => simp [tick, hd, hx] at h
    | some rx =>
      obtain ⟨dx, g1⟩ := rx
      cases hy : get_direction_y g1 s.y_direction (s.ball_y + s.y_direction)
          (s.ball_x + s.x_direction) s.pad_x with
      | none => simp [tick, hd, hx, hy] at h
      | some ry =>
        obtain ⟨dy, g2⟩ := ry
        have k1 : Keeps s.game g1 := fun i j hb =>
          effect_keeps _ _ (get_direction_x_effect _ _ _ _ _ hx) i j hb
        have k2 : Keeps g1 g2 := fun i j hb =>
          effect_keeps _ _ (get_direction_y_effect _ _ _ _ _ _ hy) i j hb
        have k : Keeps s.game g2 := keeps_trans _ _ _ k1 k2
        rw [tick_physics key s dx dy g1 g2 hd hx hy] at h
        by_cases h0 : dy = 0
        · rw [if_pos h0] at h
          simp only [Option.some.injEq, Prod.mk.injEq] at h
          refine ⟨_, ?_, ?_, Or.inl ⟨h.1.symm, h.2.symm⟩⟩
          · rfl
          · exact k
        · rw [if_neg h0] at h
          simp only [Option.some.injEq] at h
          refine ⟨_, ?_, ?_, Or.inr h.symm⟩
          · rfl
          · exact k
  · rw [tick_idle key s hd] at h
    simp only [Option.some.injEq] at h
    refine ⟨_, ?_, ?_, Or.inr h.symm⟩
    · rfl
    · exact fun i j _ => rfl

theorem get_keypress_clamp (key : Key) (p : Int) (h1 : 1 ≤ p) (h2 : p ≤ MAX_X - 3) :
    1 ≤ p + get_keypress key p ∧ p + get_keypress key p ≤ MAX_X - 3 := by
  unfold get_keypress
  cases key
  · by_cases h : p > 1
    · simp only [if_pos h]; omega
    · simp only [if_neg h]; omega
  · by_cases h : p < MAX_X - 3
    · simp only [if_pos h]; omega
    · simp only [if_neg h]; omega
  · simp only; omega

theorem tick_paddle (key : Key) (s : State) (r : GameResult) (s1 : State)
    (h : tick key s = some (r, s1)) (h1 : 1 ≤ s.pad_x) (h2 : s.pad_x ≤ MAX_X - 3) :
    1 ≤ s1.pad_x ∧ s1.pad_x ≤ MAX_X - 3 := by
  obtain ⟨m, hm, -, hc⟩ := tick_inv key s r s1 h
  rcases hc with ⟨-, rfl⟩ | hc
  · rw [hm]; exact ⟨h1, h2⟩
  · unfold finish_tick at hc
    by_cases hw : game_won m.game.blocks ≠ 0
    · rw [if_pos hw] at hc
      simp only [Prod.mk.injEq] at hc
      rw [hc.2, hm]; exact ⟨h1, h2⟩
    · rw [if_neg hw] at hc
      simp only [Prod.mk.injEq] at hc
      rw [hc.2]
      simp only [hm]
      exact get_keypress_clamp key s.pad_x h1 h2

theorem run_paddle (keys : List Key) (s : State) (r : GameResult) (s1 : State)
    (h : run s keys = some (r, s1)) (h1 : 1 ≤ s.pad_x) (h2 : s.pad_x ≤ MAX_X - 3) :
    1 ≤ s1.pad_x ∧ s1.pad_x ≤ MAX_X - 3 := by
  induction keys generalizing s with
  | nil =>
    simp only [run, Option.some.injEq, Prod.mk.injEq] at h
    rw [← h.2]; exact ⟨h1, h2⟩
  | cons key keys ih =>
    unfold run at h
    cases ht : tick key s with
    | none => simp [ht] at h
    | some p =>
      obtain ⟨r1, m⟩ := p
      have hp := tick_paddle key s r1 m ht h1 h2
      cases r1 with
      | Playing =>
        simp only [ht] at h
        exact ih m h hp.1 hp.2
      | Won =>
        simp only [ht, Option.some.injEq, Prod.mk.injEq] at h
        rw [← h.2]; exact hp
      | Lost =>
        simp only [ht, Option.some.injEq, Prod.mk.injEq] at h
        rw [← h.2]; exact hp

theorem paddle_after_clamp (keys : List Key) (p : Int) (h1 : 1 ≤ p) (h2 : p ≤ MAX_X - 3) :
    1 ≤ paddle_after p keys ∧ paddle_after p keys ≤ MAX_X - 3 := by
  induction keys generalizing p with
  | nil => exact ⟨h1, h2⟩
  | cons key keys ih =>
    have hk := get_keypress_clamp key p h1 h2
    exact ih (move_paddle p key) hk.1 hk.2

/-- C1 (paddle clamp). Starting from `pad_x = 20`, after any list of keys applied one per
iteration by `pad_x += get_keypress(pad_x)`, and after any prefix of it, the paddle
position is between `1` and `MAX_X - 3 = 64`; the same holds for `pad_x` in every state the
main loop reaches from its initial state, whatever the ball does. -/
theorem C1_paddle_clamp (keys : List Key) (n : Nat) :
    MAX_X - 3 = 64 ∧
    (1 ≤ paddle_after 20 (keys.take n) ∧ paddle_after 20 (keys.take n) ≤ MAX_X - 3) ∧
    (∀ r s, run initial (keys.take n) = some (r, s) → 1 ≤ s.pad_x ∧ s.pad_x ≤ MAX_X - 3) := by
  refine ⟨by decide, paddle_after_clamp _ 20 (by decide) (by decide), ?_⟩
  intro r s h
  exact run_paddle _ initial r s h (by decide) (by decide)

/-- C1, checked on the keys left, left, right: the loop is still playing after three
iterations, with the paddle at `19`. -/
theorem C1_paddle_clamp_witness :
    paddle_after 20 [Key.left, Key.left, Key.right] = 19 ∧
    run initial [Key.left, Key.left, Key.right]
      = some (GameResult.Playing,
          { initial with pad_x := 19, delay_count := 4,
                         game := init_blocks (init_blocks (init_blocks start_game)) }) ∧
    (1 ≤ paddle_after 20 [Key.left, Key.left, Key.right] ∧
      paddle_after 20 [Key.left, Key.left, Key.right] ≤ MAX_X - 3) ∧
    (1 ≤ (19 : Int) ∧ (19 : Int) ≤ MAX_X - 3) :=
  ⟨by decide, rfl, (C1_paddle_clamp [Key.left, Key.left, Key.right] 3).2.1,
    (C1_paddle_clamp [Key.left, Key.left, Key.right] 3).2.2 GameResult.Playing
      { initial with pad_x := 19, delay_count := 4,
                     game := init_blocks (init_blocks (init_blocks start_game)) } rfl⟩

/-- The win check and input step never lose and leave the ball alone. -/
theorem finish_tick_ball (key : Key) (m : State) :
    (finish_tick key m).1 ≠ GameResult.Lost ∧
      (finish_tick key m).2.ball_x = m.ball_x ∧ (finish_tick key m).2.ball_y = m.ball_y ∧
      (finish_tick key m).2.x_direction = m.x_direction ∧
      (finish_tick key m).2.y_direction = m.y_direction := by
  unfold finish_tick
  by_cases hw : game_won m.game.blocks ≠ 0
  · rw [if_pos hw]; exact ⟨fun h => GameResult.noConfusion h, rfl, rfl, rfl, rfl⟩
  · rw [if_neg hw]; exact ⟨fun h => GameResult.noConfusion h, rfl, rfl, rfl, rfl⟩

/-- C2 (commit policy). On a physics iteration (`delay_count >= BALL_DELAY`) where the
resolvers return `dx` and `dy`, each axis is committed on its own: `ball_x` stays when `dx`
differs from `x_direction` and advances by `dx` when it is the same, and `x_direction`
becomes `dx`; `ball_y` stays when `dy` differs from `y_direction` and advances by `dy` when
it is the same, and, unless `dy` is the loss value `0` (where the loop returns at line 301),
`y_direction` becomes `dy`. -/
theorem C2_commit_policy (key : Key) (s : State) (dx dy : Int) (g1 g2 : Game)
    (hd : s.delay_count ≥ BALL_DELAY)
    (hdir : (s.x_direction = 1 ∨ s.x_direction = -1) ∧ (s.y_direction = 1 ∨ s.y_direction = -1))
    (hx : get_direction_x (init_blocks s.game) s.x_direction (s.ball_y + s.y_direction)
      (s.ball_x + s.x_direction) = some (dx, g1))
    (hy : get_direction_y g1 s.y_direction (s.ball_y + s.y_direction)
      (s.ball_x + s.x_direction) s.pad_x = some (dy, g2)) :
    ∃ r s1, tick key s = some (r, s1) ∧
      (dx ≠ s.x_direction → s1.ball_x = s.ball_x) ∧
      (dx = s.x_direction → s1.ball_x = s.ball_x + dx) ∧
      s1.x_direction = dx ∧
      (dy ≠ s.y_direction → s1.ball_y = s.ball_y) ∧
      (dy = s.y_direction → r ≠ GameResult.Lost ∧ s1.ball_y = s.ball_y + dy) ∧
      (dy ≠ 0 → r ≠ GameResult.Lost ∧ s1.y_direction = dy) ∧
      (dy = 0 → r = GameResult.Lost) := by
  rw [tick_physics key s dx dy g1 g2 hd hx hy]
  by_cases h0 : dy = 0
  · rw [if_pos h0]
    refine ⟨GameResult.Lost, _, rfl, ?_, ?_, ?_, ?_, ?_, ?_, ?_⟩
    · intro h; simp only [if_neg h]
    · intro h; simp only [if_pos h]; rw [h]
    · rfl
    · intro _; rfl
    · intro h; rcases hdir.2 with h1 | h1 <;> omega
    · intro h; exact absurd h0 h
    · intro _; rfl
  · rw [if_neg h0]
    generalize hm : ({ s with
        ball_x := if dx = s.x_direction then s.ball_x + s.x_direction else s.ball_x,
        ball_y := if dy = s.y_direction then s.ball_y + s.y_direction else s.ball_y,
        x_direction := dx, y_direction := dy, delay_count := 0, game := g2 } : State) = m
    obtain ⟨hne, hbx, hby, hdx, hdy⟩ := finish_tick_ball key m
    refine ⟨(finish_tick key m).1, (finish_tick key m).2, rfl, ?_, ?_, ?_, ?_, ?_, ?_, ?_⟩
    · intro h; rw [hbx, ← hm]; simp only [if_neg h]
    · intro h; rw [hbx, ← hm]; simp only [if_pos h]; rw [h]
    · rw [hdx, ← hm]
    · intro h; rw [hby, ← hm]; simp only [if_neg h]
    · intro h; refine ⟨hne, ?_⟩; rw [hby, ← hm]; simp only [if_pos h]; rw [h]
    · intro _; refine ⟨hne, ?_⟩; rw [hdy, ← hm]
    · intro h; exact absurd h h0

/-- C2, checked on the initial state with the delay timer at `4`: the ball moves from
`(0, 8)` to `(1, 9)` and both directions stay `1`. -/
theorem C2_commit_policy_witness :
    ∃ r s1, tick Key.other { initial with delay_count := 4 } = some (r, s1) ∧
      s1.ball_x = 1 ∧ s1.x_direction = 1 ∧ s1.ball_y = 9 ∧ s1.y_direction = 1 ∧
      r ≠ GameResult.Lost := by
  obtain ⟨r, s1, h, -, hx, hdx, -, hy, hdy, -⟩ :=
    C2_commit_policy Key.other { initial with delay_count := 4 } 1 1
      (init_blocks start_game) (init_blocks start_game) (by decide)
      ⟨Or.inl rfl, Or.inl rfl⟩ rfl rfl
  exact ⟨r, s1, h, hx rfl, hdx, (hy rfl).2, (hdy (by decide)).2, (hdy (by decide)).1⟩

/-! ## The win check -/

theorem zero_seen_row (b : Blocks) (i : Nat) (z : Int) (n : Nat) :
    ((List.range n).foldl (fun acc j => if b i j = 0 then 1 else acc) z = 1 ∧ ∃ j, j < n ∧ b i j = 0)
      ∨ ((List.range n).foldl (fun acc j => if b i j = 0 then 1 else acc) z = z
          ∧ ∀ j, j < n → b i j ≠ 0) := by
  induction n with
  | zero => right; exact ⟨rfl, fun j hj => absurd hj (Nat.not_lt_zero j)⟩
  | succ n ih =>
    rw [List.range_succ, List.foldl_append]
    simp only [List.foldl_cons, List.foldl_nil]
    by_cases h : b i n = 0
    · left
      rw [if_pos h]
      exact ⟨rfl, n, Nat.lt_succ_self n, h⟩
    · rw [if_neg h]
      rcases ih with ⟨e, j, hj, hb⟩ | ⟨e, hall⟩
      · left; exact ⟨e, j, Nat.lt_succ_of_lt hj, hb⟩
      · right
        refine ⟨e, fun j hj => ?_⟩
        rcases Nat.lt_succ_iff_lt_or_eq.mp hj with h1 | h1
        · exact hall j h1
        · rw [h1]; exact h

theorem zero_seen_grid (b : Blocks) (n m : Nat) :
    ((List.range m).foldl
        (fun acc i => (List.range n).foldl (fun acc1 j => if b i j = 0 then 1 else acc1) acc)
        (0 : Int) = 1
        ∧ ∃ i j, i < m ∧ j < n ∧ b i j = 0)
      ∨ ((List.range m).foldl
        (fun acc i => (List.range n).foldl (fun acc1 j => if b i j = 0 then 1 else acc1) acc)
        (0 : Int) = 0
          ∧ ∀ i j, i < m → j < n → b i j ≠ 0) := by
  induction m with
  | zero => right; exact ⟨rfl, fun i j hi => absurd hi (Nat.not_lt_zero i)⟩
  | succ m ih =>
    rw [List.range_succ, List.foldl_append]
    simp only [List.foldl_cons, List.foldl_nil]
    rcases zero_seen_row b m
      ((List.range m).foldl
        (fun acc i => (List.range n).foldl (fun acc1 j => if b i j = 0 then 1 else acc1) acc)
        (0 : Int)) n
      with ⟨e, j, hj, hb⟩ | ⟨e, hall⟩
    · left; exact ⟨e, m, j, Nat.lt_succ_self m, hj, hb⟩
    · rw [e]
      rcases ih with ⟨e1, i, j, hi, hj, hb⟩ | ⟨e1, hall1⟩
      · left; exact ⟨e1, i, j, Nat.lt_succ_of_lt hi, hj, hb⟩
      · right
        refine ⟨e1, fun i j hi hj => ?_⟩
        rcases Nat.lt_succ_iff_lt_or_eq.mp hi with h1 | h1
        · exact hall1 i j h1 hj
        · rw [h1]; exact hall j hj

theorem game_won_eq (b : Blocks) :
    (game_won b = 1 ∧ AllBroken b) ∨ (game_won b = 0 ∧ ¬ AllBroken b) := by
  unfold AllBroken
  rcases zero_seen_grid b BLOCK_COLS BLOCK_ROWS with ⟨e, i, j, hi, hj, hb⟩ | ⟨e, hall⟩
  · right
    refine ⟨?_, fun h => h i j hi hj hb⟩
    simp only [game_won, e]
    decide
  · left
    refine ⟨?_, hall⟩
    simp only [game_won, e]
    decide

/-- C3 (win iff all broken). `game_won` returns `1` exactly when every flag of the `2 × 4`
array is non-zero and `0` otherwise; and an iteration of the loop that reaches the check of
line 313 (one that is not lost) ends as `Won` exactly when every block is broken then. -/
theorem C3_win_iff_all_broken :
    (∀ b : Blocks, (game_won b = 1 ↔ AllBroken b) ∧ (game_won b = 0 ↔ ¬ AllBroken b)) ∧
    (∀ key s r s1, tick key s = some (r, s1) → r ≠ GameResult.Lost →
      (r = GameResult.Won ↔ AllBroken s1.game.blocks)) := by
  constructor
  · intro b
    rcases game_won_eq b with ⟨e, h⟩ | ⟨e, h⟩
    · rw [e]; exact ⟨⟨fun _ => h, fun _ => rfl⟩, ⟨fun h1 => absurd h1 (by decide), fun h1 => absurd h h1⟩⟩
    · rw [e]; exact ⟨⟨fun h1 => absurd h1 (by decide), fun h1 => absurd h1 h⟩, ⟨fun _ => h, fun _ => rfl⟩⟩
  · intro key s r s1 ht hr
    obtain ⟨m, -, -, hc⟩ := tick_inv key s r s1 ht
    rcases hc with ⟨h1, -⟩ | hc
    · exact absurd h1 hr
    · unfold finish_tick at hc
      rcases game_won_eq m.game.blocks with ⟨e, h⟩ | ⟨e, h⟩
      · rw [e, if_pos (by decide)] at hc
        simp only [Prod.mk.injEq] at hc
        rw [hc.1, hc.2]
        exact ⟨fun _ => h, fun _ => rfl⟩
      · rw [e, if_neg (by decide)] at hc
        simp only [Prod.mk.injEq] at hc
        rw [hc.1, hc.2]
        exact ⟨fun h1 => GameResult.noConfusion h1, fun h1 => absurd h1 h⟩

/-- C3, checked on the first iteration of the game and on a state whose blocks are all
broken: the first ends `Playing` with block `(0, 0)` intact, the second ends `Won`. -/
theorem C3_win_iff_all_broken_witness :
    game_won (fun _ _ => 1) = 1 ∧ game_won (fun _ _ => 0) = 0 ∧
    game_won (fun i j => if i = 1 ∧ j = 3 then 0 else 1) = 0 ∧
    (GameResult.Playing = GameResult.Won ↔
      AllBroken ({ initial with pad_x := 20, delay_count := 2,
                                game := init_blocks start_game } : State).game.blocks) ∧
    (GameResult.Won = GameResult.Won ↔
      AllBroken ({ initial with
        game := init_blocks { start_game with blocks := fun _ _ => 1 } } : State).game.blocks) :=
  ⟨by decide, by decide, by decide,
    C3_win_iff_all_broken.2 Key.other initial GameResult.Playing
      { initial with pad_x := 20, delay_count := 2, game := init_blocks start_game } rfl
      (by decide),
    C3_win_iff_all_broken.2 Key.other { initial with game := { start_game with blocks := fun _ _ => 1 } }
      GameResult.Won
      { initial with game := init_blocks { start_game with blocks := fun _ _ => 1 } } rfl
      (by decide)⟩

/-! ## Monotonic breaking -/

theorem keeps_refl (g : Game) : Keeps g g := fun _ _ _ => rfl

theorem finish_tick_game (key : Key) (m : State) : (finish_tick key m).2.game = m.game := by
  unfold finish_tick
  by_cases hw : game_won m.game.blocks ≠ 0
  · rw [if_pos hw]
  · rw [if_neg hw]

theorem tick_keeps (key : Key) (s : State) (r : GameResult) (s1 : State)
    (h : tick key s = some (r, s1)) : Keeps s.game s1.game := by
  obtain ⟨m, -, hk, hc⟩ := tick_inv key s r s1 h
  rcases hc with ⟨-, rfl⟩ | hc
  · exact hk
  · have e : s1.game = m.game := by
      have := finish_tick_game key m
      rw [← hc] at this
      exact this
    rw [e]; exact hk

theorem run_keeps (keys : List Key) (s : State) (r : GameResult) (s1 : State)
    (h : run s keys = some (r, s1)) : Keeps s.game s1.game := by
  induction keys generalizing s with
  | nil =>
    simp only [run, Option.some.injEq, Prod.mk.injEq] at h
    rw [← h.2]; exact keeps_refl _
  | cons key keys ih =>
    unfold run at h
    cases ht : tick key s with
    | none => simp [ht] at h
    | some p =>
      obtain ⟨r1, m⟩ := p
      have hk := tick_keeps key s r1 m ht
      cases r1 with
      | Playing =>
        simp only [ht] at h
        exact keeps_trans _ _ _ hk (ih m h)
      | Won =>
        simp only [ht, Option.some.injEq, Prod.mk.injEq] at h
        rw [← h.2]; exact hk
      | Lost =>
        simp only [ht, Option.some.injEq, Prod.mk.injEq] at h
        rw [← h.2]; exact hk

theorem run_cons_playing (key : Key) (keys : List Key) (s m : State)
    (h : tick key s = some (GameResult.Playing, m)) : run s (key :: keys) = run m keys := by
  simp only [run, h]

/-- A run over `keys1 ++ keys2` that is still playing after `keys1` continues from there. -/
theorem run_append (keys1 keys2 : List Key) (s s1 : State)
    (h : run s keys1 = some (GameResult.Playing, s1)) :
    run s (keys1 ++ keys2) = run s1 keys2 := by
  induction keys1 generalizing s with
  | nil =>
    simp only [run, Option.some.injEq, Prod.mk.injEq, true_and] at h
    rw [h]; rfl
  | cons key keys ih =>
    rw [List.cons_append]
    cases ht : tick key s with
    | none => simp [run, ht] at h
    | some p =>
      obtain ⟨r1, m⟩ := p
      cases r1 with
      | Playing =>
        rw [run_cons_playing key _ s m ht] at h ⊢
        exact ih m h
      | Won => simp [run, ht] at h
      | Lost => simp [run, ht] at h

theorem keeps_count_le (g g1 : Game) (h : Keeps g g1) :
    broken_count g.blocks ≤ broken_count g1.blocks := by
  unfold broken_count
  apply Finset.card_le_card
  intro p hp
  simp only [Finset.mem_filter, Finset.mem_univ, true_and] at hp ⊢
  rw [h _ _ hp]; exact hp

/-- C4 (monotonic breaking). Each of `get_direction_x`, `get_direction_y`, `init_blocks` and
a whole loop iteration leaves every broken (non-zero) flag at its value; so along every run,
from any state and between any two of its points, broken blocks stay broken and the number
of broken blocks does not decrease. -/
theorem C4_monotonic_breaking :
    (∀ g d y x r, get_direction_x g d y x = some r → Keeps g r.2) ∧
    (∀ g d y x p r, get_direction_y g d y x p = some r → Keeps g r.2) ∧
    (∀ g, Keeps g (init_blocks g)) ∧
    (∀ key s r s1, tick key s = some (r, s1) → Keeps s.game s1.game) ∧
    (∀ keys s r s1, run s keys = some (r, s1) →
      Keeps s.game s1.game ∧ broken_count s.game.blocks ≤ broken_count s1.game.blocks) ∧
    (∀ keys1 keys2 s s1 r s2, run s keys1 = some (GameResult.Playing, s1) →
      run s (keys1 ++ keys2) = some (r, s2) →
      Keeps s1.game s2.game ∧ broken_count s1.game.blocks ≤ broken_count s2.game.blocks) := by
  refine ⟨?_, ?_, ?_, ?_, ?_, ?_⟩
  · intro g d y x r h i j hb
    exact effect_keeps _ _ (get_direction_x_effect g d y x r h) i j hb
  · intro g d y x p r h i j hb
    exact effect_keeps _ _ (get_direction_y_effect g d y x p r h) i j hb
  · intro g i j _
    rfl
  · exact tick_keeps
  · intro keys s r s1 h
    exact ⟨run_keeps keys s r s1 h, keeps_count_le _ _ (run_keeps keys s r s1 h)⟩
  · intro keys1 keys2 s s1 r s2 h1 h2
    rw [run_append keys1 keys2 s s1 h1] at h2
    exact ⟨run_keeps keys2 s1 r s2 h2, keeps_count_le _ _ (run_keeps keys2 s1 r s2 h2)⟩

set_option maxRecDepth 10000 in
/-- C4, checked on a hit of the bottom edge of block `(0, 1)` when only block `(0, 0)` is
broken: the call breaks block `(0, 1)` and block `(0, 0)` keeps its flag `1`. -/
theorem C4_monotonic_breaking_witness :
    get_direction_y (built first_broken) (-1) 3 20 20
      = some (1, { built first_broken with blocks := set_block first_broken 0 1 1 }) ∧
    Keeps (built first_broken)
      { built first_broken with blocks := set_block first_broken 0 1 1 } ∧
    set_block first_broken 0 1 1 0 0 = 1 :=
  ⟨rfl, C4_monotonic_breaking.2.1 (built first_broken) (-1) 3 20 20
    (1, { built first_broken with blocks := set_block first_broken 0 1 1 }) (by rfl), rfl⟩

/-! ## Scenarios of `get_direction_y` -/

/-- C5 (ball-lost sentinel). With `y_direction` either `1` or `-1`: when `next_y > MAX_Y = 24`,
whatever `next_x`, `pad_x` and the globals are, `get_direction_y` returns `0` and leaves the
globals as they were (so for `next_y = MAX_Y + 1`, `next_x = 30`); and it returns `0` only
when `next_y > MAX_Y`. -/
theorem C5_ball_lost_sentinel (g : Game) (y_direction next_y next_x pad_x : Int)
    (hdir : y_direction = 1 ∨ y_direction = -1) :
    MAX_Y = 24 ∧
    (next_y > MAX_Y → get_direction_y g y_direction next_y next_x pad_x = some (0, g)) ∧
    get_direction_y g y_direction (MAX_Y + 1) 30 pad_x = some (0, g) ∧
    (∀ g1, get_direction_y g y_direction next_y next_x pad_x = some (0, g1) → next_y > MAX_Y) := by
  have low : ∀ y x : Int, y > MAX_Y → get_direction_y g y_direction y x pad_x = some (0, g) := by
    intro y x hy
    have h1 : ¬ (y ≤ 0 ∨ (y = PAD_Y ∧ x ≥ pad_x ∧ x ≤ pad_x + 3)) := by
      unfold MAX_Y at hy; unfold PAD_Y; omega
    rw [get_direction_y_low g y_direction y x pad_x h1 (by unfold MAX_Y at hy; omega), if_pos hy]
  refine ⟨rfl, low next_y next_x, low _ _ (by decide), ?_⟩
  intro g1 h
  by_contra hn
  unfold get_direction_y at h
  by_cases h1 : next_y ≤ 0 ∨ (next_y = PAD_Y ∧ next_x ≥ pad_x ∧ next_x ≤ pad_x + 3)
  · rw [if_pos h1] at h
    simp only [Option.some.injEq, Prod.mk.injEq] at h
    rcases hdir with hd | hd <;> omega
  · rw [if_neg h1, if_neg hn] at h
    by_cases h2 : next_y < (BLOCK_ROWS * BLOCK_H : Nat) ∧ next_x < (BLOCK_COLS * BLOCK_W : Nat)
    · rw [if_pos h2] at h
      unfold hit_block at h
      cases hs : sprite_at g next_y next_x with
      | none => simp [hs] at h
      | some cell =>
        simp only [hs] at h
        cases ho : cell.grid_member with
        | none => simp [ho] at h
        | some p =>
          obtain ⟨i, j⟩ := p
          simp only [ho] at h
          by_cases hc : g.blocks i j = 0 ∧ cell.sprite = '-'
          · rw [if_pos hc] at h
            simp only [Option.some.injEq, Prod.mk.injEq] at h
            rcases hdir with hd | hd <;> omega
          · rw [if_neg hc] at h
            simp only [Option.some.injEq, Prod.mk.injEq] at h
            rcases hdir with hd | hd <;> omega
    · rw [if_neg h2] at h
      simp only [Option.some.injEq, Prod.mk.injEq] at h
      rcases hdir with hd | hd <;> omega

/-- C5, checked at `next_y = 25`, `next_x = 30` for the downward direction, on the grid of
the start of the game. -/
theorem C5_ball_lost_sentinel_witness :
    get_direction_y (built (fun _ _ => 0)) 1 25 30 20 = some (0, built (fun _ _ => 0)) ∧
    (25 : Int) > MAX_Y :=
  ⟨((C5_ball_lost_sentinel (built (fun _ _ => 0)) 1 25 30 20 (Or.inl rfl)).2.1) (by decide),
    by decide⟩

/-- C6 (ceiling bounce touches no block). When `next_y <= 0`, whatever `next_x`, `pad_x`,
`y_direction` and the globals are, `get_direction_y` returns `-y_direction` and leaves the
globals as they were; so `get_direction_y(1, 0, 5, pad_x) = -1`, although on the grid built
from intact blocks the cell `(0, 5)` holds the top edge `-` of the unbroken block `(0, 0)`. -/
theorem C6_ceiling_bounce (g : Game) (y_direction next_y next_x pad_x : Int)
    (h : next_y ≤ 0) :
    get_direction_y g y_direction next_y next_x pad_x = some (-y_direction, g) ∧
    get_direction_y g 1 0 5 pad_x = some (-1, g) ∧
    (built (fun _ _ => 0)).block_sprites 0 5 = ⟨'-', some (0, 0)⟩ ∧
    (built (fun _ _ => 0)).blocks 0 0 = 0 ∧
    get_direction_y (built (fun _ _ => 0)) y_direction 0 5 pad_x
      = some (-y_direction, built (fun _ _ => 0)) := by
  refine ⟨get_direction_y_flip _ _ _ _ _ (Or.inl h), get_direction_y_flip _ _ _ _ _ (Or.inl (le_refl 0)),
    ?_, rfl, get_direction_y_flip _ _ _ _ _ (Or.inl (le_refl 0))⟩
  rw [built_sprites _ 0 5 (by decide) (by decide)]
  rfl

/-- C6, checked at `next_y = 0`, `next_x = 5`, `pad_x = 20` going up. -/
theorem C6_ceiling_bounce_witness :
    get_direction_y (built (fun _ _ => 0)) (-1) 0 5 20 = some (- -1, built (fun _ _ => 0)) :=
  (C6_ceiling_bounce (built (fun _ _ => 0)) (-1) 0 5 20 (le_refl 0)).1

/-- C7 (paddle save). At `next_y = PAD_Y = 23`, whatever `y_direction` (up or down) and the
globals are, and for every `pad_x` whose sum `pad_x + 3` of line 160 is an `int`
(`pad_x + 3 <= INT_MAX`; beyond it the C addition overflows and has no defined value): when
`pad_x <= next_x <= pad_x + 3`, `get_direction_y` returns `-y_direction` and leaves the
globals as they were; when `next_x` is outside that range it returns `y_direction`, globals
again untouched. With `pad_x = 20`, `next_x = 21` and `y_direction = 1` the result is `-1`. -/
theorem C7_paddle_save (g : Game) (y_direction next_x pad_x : Int)
    (hsum : pad_x + 3 ≤ INT_MAX) :
    PAD_Y = 23 ∧
    (pad_x ≤ next_x ∧ next_x ≤ pad_x + 3 →
      get_direction_y g y_direction PAD_Y next_x pad_x = some (-y_direction, g)) ∧
    (¬ (pad_x ≤ next_x ∧ next_x ≤ pad_x + 3) →
      get_direction_y g y_direction PAD_Y next_x pad_x = some (y_direction, g)) ∧
    get_direction_y g 1 PAD_Y 21 20 = some (-1, g) ∧
    get_direction_y g (-1) PAD_Y 21 20 = some (1, g) := by
  -- `hsum` restricts the statement to the calls on which the sum `pad_x + 3` is defined
  -- in C; on these the comparison over `Int` below is the comparison of line 160.
  have _ := hsum
  refine ⟨rfl, ?_, ?_, ?_, ?_⟩
  · intro h
    exact get_direction_y_flip _ _ _ _ _ (Or.inr ⟨rfl, h.1, h.2⟩)
  · intro h
    have h1 : ¬ (PAD_Y ≤ 0 ∨ (PAD_Y = PAD_Y ∧ next_x ≥ pad_x ∧ next_x ≤ pad_x + 3)) := by
      unfold PAD_Y
      rintro (h2 | ⟨-, h2, h3⟩)
      · omega
      · exact h ⟨h2, h3⟩
    rw [get_direction_y_low g y_direction PAD_Y next_x pad_x h1 (by decide), if_neg (by decide)]
  · exact get_direction_y_flip _ _ _ _ _ (Or.inr ⟨rfl, by decide, by decide⟩)
  · exact get_direction_y_flip _ _ _ _ _ (Or.inr ⟨rfl, by decide, by decide⟩)

/-- C7, checked with the paddle at `20`: column `21` is saved in both directions, column
`24` is not covered; and at the largest paddle position with a defined sum,
`pad_x = INT_MAX - 3`, column `INT_MAX` is saved. -/
theorem C7_paddle_save_witness :
    (20 : Int) + 3 ≤ INT_MAX ∧
    get_direction_y (built intact) 1 PAD_Y 21 20 = some (-1, built intact) ∧
    get_direction_y (built intact) (-1) PAD_Y 23 20 = some (- -1, built intact) ∧
    get_direction_y (built intact) 1 PAD_Y 24 20 = some (1, built intact) ∧
    get_direction_y (built intact) 1 PAD_Y 19 20 = some (1, built intact) ∧
    get_direction_y (built intact) 1 PAD_Y INT_MAX (INT_MAX - 3)
      = some (-1, built intact) :=
  ⟨by decide,
    (C7_paddle_save (built intact) 1 21 20 (by decide)).2.2.2.1,
    (C7_paddle_save (built intact) (-1) 23 20 (by decide)).2.1 ⟨by decide, by decide⟩,
    (C7_paddle_save (built intact) 1 24 20 (by decide)).2.2.1 (by decide),
    (C7_paddle_save (built intact) 1 19 20 (by decide)).2.2.1 (by decide),
    (C7_paddle_save (built intact) 1 INT_MAX (INT_MAX - 3) (by decide)).2.1 ⟨by decide, by decide⟩⟩

/-! ## The resolvers inside the block region -/

theorem get_direction_x_region (g : Game) (d y x : Int) (i j : Nat)
    (hy0 : 0 ≤ y) (hy : y < 8) (hx0 : 0 < x) (hx : x < 67)
    (ho : (g.block_sprites y.toNat x.toNat).grid_member = some (i, j)) :
    get_direction_x g d y x
      = if g.blocks i j = 0 ∧ (g.block_sprites y.toNat x.toNat).sprite = '|' then
          some (-d, { g with blocks := set_block g.blocks i j 1 })
        else some (d, g) := by
  unfold get_direction_x
  have h1 : ¬ (x ≥ MAX_X ∨ x ≤ 0) := by unfold MAX_X; omega
  have h2 : y < (BLOCK_ROWS * BLOCK_H : Nat) ∧ x < (BLOCK_COLS * BLOCK_W : Nat) := by
    simp only [BLOCK_ROWS, BLOCK_H, BLOCK_COLS, BLOCK_W]
    constructor <;> norm_num <;> omega
  rw [if_neg h1, if_pos h2, hit_block_eq g '|' d y x i j hy0 hy (le_of_lt hx0) (by omega) ho]
  by_cases hc : g.blocks i j = 0 ∧ (g.block_sprites y.toNat x.toNat).sprite = '|'
  · simp only [if_pos hc]
  · simp only [if_neg hc]

theorem get_direction_x_below (g : Game) (d y x : Int) (hy : 8 ≤ y) (h1 : ¬ (x ≥ MAX_X ∨ x ≤ 0)) :
    get_direction_x g d y x = some (d, g) := by
  unfold get_direction_x
  rw [if_neg h1, if_neg]
  simp only [BLOCK_ROWS, BLOCK_H]
  intro h
  have := h.1
  norm_num at this
  omega

theorem get_direction_y_region (g : Game) (d y x p : Int) (i j : Nat)
    (hy0 : 0 < y) (hy : y < 8) (hx0 : 0 ≤ x) (hx : x < 68)
    (ho : (g.block_sprites y.toNat x.toNat).grid_member = some (i, j)) :
    get_direction_y g d y x p
      = if g.blocks i j = 0 ∧ (g.block_sprites y.toNat x.toNat).sprite = '-' then
          some (-d, { g with blocks := set_block g.blocks i j 1 })
        else some (d, g) := by
  unfold get_direction_y
  have h1 : ¬ (y ≤ 0 ∨ (y = PAD_Y ∧ x ≥ p ∧ x ≤ p + 3)) := by unfold PAD_Y; omega
  have h2 : y < (BLOCK_ROWS * BLOCK_H : Nat) ∧ x < (BLOCK_COLS * BLOCK_W : Nat) := by
    simp only [BLOCK_ROWS, BLOCK_H, BLOCK_COLS, BLOCK_W]
    constructor <;> norm_num <;> omega
  have h3 : ¬ y > MAX_Y := by unfold MAX_Y; omega
  rw [if_neg h1, if_pos h2, hit_block_eq g '-' d y x i j (le_of_lt hy0) hy hx0 hx ho]
  by_cases hc : g.blocks i j = 0 ∧ (g.block_sprites y.toNat x.toNat).sprite = '-'
  · simp only [if_pos hc]
  · simp only [if_neg hc, if_neg h3]

theorem stale_sprites (b0 b : Blocks) (r c : Nat) (hr : r < 8) (hc : c < 68) :
    (stale b0 b).block_sprites r c
      = ⟨if b0 (r / 4) (c / 17) = 0 then glyph (r % 4) (c % 17) else NUL, some (r / 4, c / 17)⟩ :=
  built_sprites b0 r c hr hc

theorem set_block_apply (b : Blocks) (i j : Nat) (v : Int) (i1 j1 : Nat) :
    set_block b i j v i1 j1 = if i1 = i ∧ j1 = j then v else b i1 j1 := rfl

/-- C9 (`get_direction_x` is the three-case `resolve_x`). On the globals built by
`init_blocks` from any flags `b`, for every `x_direction`, every `next_y >= 0` and every
`next_x`: (1) when `next_x >= MAX_X` or `next_x <= 0` the result is `-x_direction` and the
globals are untouched; (2) otherwise, when the cell is in the block region, its owning block
`(next_y / 4, next_x / 17)` is unbroken and its sprite is `|`, the result is `-x_direction`
and the flags become `b` with `1` stored in that block only; (3) otherwise the result is
`x_direction` and the globals are untouched. The cell records that owner. -/
theorem C9_resolve_x (b : Blocks) (x_direction next_y next_x : Int) (h0 : 0 ≤ next_y) :
    (next_x ≥ MAX_X ∨ next_x ≤ 0 →
      get_direction_x (built b) x_direction next_y next_x = some (-x_direction, built b)) ∧
    (¬ (next_x ≥ MAX_X ∨ next_x ≤ 0) →
      (next_y < (BLOCK_ROWS * BLOCK_H : Nat) ∧ next_x < (BLOCK_COLS * BLOCK_W : Nat)) ∧
        b (next_y.toNat / BLOCK_H) (next_x.toNat / BLOCK_W) = 0 ∧
        ((built b).block_sprites next_y.toNat next_x.toNat).sprite = '|' →
      ((built b).block_sprites next_y.toNat next_x.toNat).grid_member
          = some (next_y.toNat / BLOCK_H, next_x.toNat / BLOCK_W) ∧
      get_direction_x (built b) x_direction next_y next_x
        = some (-x_direction,
            { built b with
              blocks := set_block b (next_y.toNat / BLOCK_H) (next_x.toNat / BLOCK_W) 1 }) ∧
      ∀ i j, set_block b (next_y.toNat / BLOCK_H) (next_x.toNat / BLOCK_W) 1 i j
        = if i = next_y.toNat / BLOCK_H ∧ j = next_x.toNat / BLOCK_W then 1 else b i j) ∧
    (¬ (next_x ≥ MAX_X ∨ next_x ≤ 0) →
      ¬ ((next_y < (BLOCK_ROWS * BLOCK_H : Nat) ∧ next_x < (BLOCK_COLS * BLOCK_W : Nat)) ∧
        b (next_y.toNat / BLOCK_H) (next_x.toNat / BLOCK_W) = 0 ∧
        ((built b).block_sprites next_y.toNat next_x.toNat).sprite = '|') →
      get_direction_x (built b) x_direction next_y next_x = some (x_direction, built b)) := by
  refine ⟨fun h => get_direction_x_wall _ _ _ _ h, ?_, ?_⟩
  · intro h1 ⟨⟨hy, hx⟩, hb, hs⟩
    simp only [BLOCK_ROWS, BLOCK_H, BLOCK_COLS, BLOCK_W] at hy hx hb ⊢
    norm_num at hy hx
    have hx0 : 0 < next_x := by unfold MAX_X at h1; omega
    have hx1 : next_x < 67 := by unfold MAX_X at h1; omega
    have ho := congrArg BlockMap.grid_member
      (built_sprites b next_y.toNat next_x.toNat (by omega) (by omega))
    refine ⟨ho, ?_, fun i j => rfl⟩
    rw [get_direction_x_region (built b) x_direction next_y next_x _ _ h0 hy hx0 hx1 ho,
      if_pos ⟨hb, hs⟩]
    rfl
  · intro h1 h2
    have hx0 : 0 < next_x := by unfold MAX_X at h1; omega
    have hx1 : next_x < 67 := by unfold MAX_X at h1; omega
    by_cases hy : next_y < 8
    · have ho := congrArg BlockMap.grid_member
        (built_sprites b next_y.toNat next_x.toNat (by omega) (by omega))
      rw [get_direction_x_region (built b) x_direction next_y next_x _ _ h0 hy hx0 hx1 ho, if_neg]
      intro ⟨hb, hs⟩
      apply h2
      simp only [BLOCK_ROWS, BLOCK_H, BLOCK_COLS, BLOCK_W]
      refine ⟨⟨?_, ?_⟩, hb, hs⟩ <;> norm_num <;> omega
    · exact get_direction_x_below _ _ _ _ (by omega) h1

set_option maxRecDepth 10000 in
/-- C9, checked on the grid of intact blocks with `x_direction = 1` in row `1`: column `67`
holds `|` and is case (1), column `17` (left edge of block `(0, 1)`) is case (2), column `5`
(interior of block `(0, 0)`) is case (3). -/
theorem C9_resolve_x_witness :
    ((built intact).block_sprites 1 67).sprite = '|' ∧
    get_direction_x (built intact) 1 1 67 = some (-1, built intact) ∧
    get_direction_x (built intact) 1 1 17
      = some (-1, { built intact with blocks := set_block intact 0 1 1 }) ∧
    get_direction_x (built intact) 1 1 5 = some (1, built intact) :=
  ⟨by rfl,
    (C9_resolve_x intact 1 1 67 (by decide)).1 (Or.inl (by decide)),
    ((C9_resolve_x intact 1 1 17 (by decide)).2.1 (by decide)
      ⟨⟨by decide, by decide⟩, by rfl, by rfl⟩).2.1,
    (C9_resolve_x intact 1 1 5 (by decide)).2.2 (by decide)
      (fun h => absurd h.2.2 (by rw [built_sprites intact _ _ (by decide) (by decide)]; decide))⟩

/-- C8 as stated fails: on the grid of intact blocks the cell `(0, 5)` is on the top edge of
the unbroken block `(0, 0)`, yet `get_direction_y` at that cell flips the direction by the
ceiling rule, leaves `blocks[0][0]` at `0`, and flips again on a second call. -/
theorem C8_top_edge_hit_counterexample :
    (built intact).block_sprites 0 5 = ⟨'-', some (0, 0)⟩ ∧
    (built intact).blocks 0 0 = 0 ∧
    get_direction_y (built intact) 1 0 5 20 = some (-1, built intact) ∧
    (¬ ∃ g1, get_direction_y (built intact) 1 0 5 20 = some (-1, g1) ∧ g1.blocks 0 0 ≠ 0) ∧
    get_direction_y (init_blocks (built intact)) (-1) 0 5 20 = some (1, init_blocks (built intact)) := by
  have h1 : get_direction_y (built intact) 1 0 5 20 = some (-1, built intact) :=
    get_direction_y_flip _ _ _ _ _ (Or.inl (le_refl 0))
  refine ⟨?_, rfl, h1, ?_, get_direction_y_flip _ _ _ _ _ (Or.inl (le_refl 0))⟩
  · rw [built_sprites _ 0 5 (by decide) (by decide)]; rfl
  · rintro ⟨g1, h2, h3⟩
    rw [h1] at h2
    simp only [Option.some.injEq, Prod.mk.injEq, true_and] at h2
    rw [← h2] at h3
    exact h3 rfl

/-- C8, amended (edge hit on block `(0, 0)`). On the globals built by `init_blocks` from
flags `b` with block `(0, 0)` unbroken, for every column `1..15`: the cell of screen row `0`
is the top edge `-` of block `(0, 0)`, and there `get_direction_y` returns the flipped
direction by the ceiling rule and leaves every flag as it was; the cell of row `3` is the
bottom edge `-` of the block, and there `get_direction_y` returns the flipped direction and
stores `1` in `blocks[0][0]`; after `init_blocks` has refreshed the grid that cell holds the
null sprite, and a second call on it returns the direction unchanged and changes nothing. -/
theorem C8_top_edge_hit (b : Blocks) (y_direction next_x pad_x : Int)
    (hb : b 0 0 = 0) (h1 : 1 ≤ next_x) (h15 : next_x ≤ 15) :
    (built b).block_sprites 0 next_x.toNat = ⟨'-', some (0, 0)⟩ ∧
    get_direction_y (built b) y_direction 0 next_x pad_x = some (-y_direction, built b) ∧
    (built b).block_sprites 3 next_x.toNat = ⟨'-', some (0, 0)⟩ ∧
    get_direction_y (built b) y_direction 3 next_x pad_x
      = some (-y_direction, { built b with blocks := set_block b 0 0 1 }) ∧
    set_block b 0 0 1 0 0 = 1 ∧
    (init_blocks { built b with blocks := set_block b 0 0 1 }).block_sprites 3 next_x.toNat
      = ⟨NUL, some (0, 0)⟩ ∧
    get_direction_y (init_blocks { built b with blocks := set_block b 0 0 1 }) y_direction 3
        next_x pad_x
      = some (y_direction, init_blocks { built b with blocks := set_block b 0 0 1 }) := by
  have hc : next_x.toNat < 68 := by omega
  have hq : next_x.toNat / 17 = 0 := by omega
  have hm : next_x.toNat % 17 = next_x.toNat := by omega
  have hg : glyph 0 next_x.toNat = '-' ∧ glyph 3 next_x.toNat = '-' := by
    unfold glyph
    simp only [BLOCK_W, BLOCK_H]
    constructor <;> split_ifs <;> first | rfl | omega
  have s0 : (built b).block_sprites 0 next_x.toNat = ⟨'-', some (0, 0)⟩ := by
    rw [built_sprites b 0 _ (by decide) hc]
    simp only [hq, hm, Nat.zero_div, Nat.zero_mod, hb, if_true, hg.1]
  have s3 : (built b).block_sprites 3 next_x.toNat = ⟨'-', some (0, 0)⟩ := by
    rw [built_sprites b 3 _ (by decide) hc]
    have e3 : 3 / 4 = 0 := by decide
    have e4 : 3 % 4 = 3 := by decide
    simp only [hq, hm, e3, e4, hb, if_true, hg.2]
  have s3r : (init_blocks { built b with blocks := set_block b 0 0 1 }).block_sprites 3
      next_x.toNat = ⟨NUL, some (0, 0)⟩ := by
    rw [init_blocks_sprites _ 3 _ (by decide) hc]
    have e3 : 3 / 4 = 0 := by decide
    have e5 : set_block b 0 0 1 0 0 ≠ 0 := by simp [set_block]
    simp only [built_cell, hq, e3, if_neg e5, s3]
  refine ⟨s0, get_direction_y_flip _ _ _ _ _ (Or.inl (le_refl 0)), s3, ?_, rfl, s3r, ?_⟩
  · rw [get_direction_y_region (built b) y_direction 3 next_x pad_x 0 0 (by decide) (by decide)
      (by omega) (by omega) (congrArg BlockMap.grid_member s3),
      if_pos ⟨hb, congrArg BlockMap.sprite s3⟩]
    rfl
  · rw [get_direction_y_region _ y_direction 3 next_x pad_x 0 0 (by decide) (by decide)
      (by omega) (by omega) (congrArg BlockMap.grid_member s3r), if_neg]
    intro h
    have e5 : set_block b 0 0 1 0 0 ≠ 0 := by simp [set_block]
    exact e5 h.1

set_option maxRecDepth 10000 in
/-- C8 amended, checked at column `5` going up with the paddle at `20`. -/
theorem C8_top_edge_hit_witness :
    intact 0 0 = 0 ∧
    get_direction_y (built intact) (-1) 0 5 20 = some (1, built intact) ∧
    get_direction_y (built intact) (-1) 3 5 20
      = some (1, { built intact with blocks := set_block intact 0 0 1 }) ∧
    get_direction_y (init_blocks { built intact with blocks := set_block intact 0 0 1 }) (-1) 3 5 20
      = some (-1, init_blocks { built intact with blocks := set_block intact 0 0 1 }) :=
  ⟨rfl, (C8_top_edge_hit intact (-1) 5 20 rfl (by decide) (by decide)).2.1,
    (C8_top_edge_hit intact (-1) 5 20 rfl (by decide) (by decide)).2.2.2.1,
    (C8_top_edge_hit intact (-1) 5 20 rfl (by decide) (by decide)).2.2.2.2.2.2⟩

/-- C10 (horizontal block-edge hit). The globals hold flags `b` and the sprite grid built by
`init_blocks` from flags `b0` (`b0 = b` right after `init_blocks`; `b0` older when
`get_direction_x` has just broken a block). For every cell with `0 < next_y < 8` and
`0 <= next_x < 68` the grid records the owner `(next_y / 4, next_x / 17)`; when that block is
unbroken and the sprite is `-`, `get_direction_y` returns `-y_direction` and the flags become
`b` with `1` stored in that block only; when that block is already broken, the result is
`y_direction` and the globals are untouched. -/
theorem C10_horizontal_edge_hit (b0 b : Blocks) (y_direction next_y next_x pad_x : Int)
    (hy0 : 0 < next_y) (hy : next_y < (BLOCK_ROWS * BLOCK_H : Nat))
    (hx0 : 0 ≤ next_x) (hx : next_x < (BLOCK_COLS * BLOCK_W : Nat)) :
    stale b b = built b ∧
    ((stale b0 b).block_sprites next_y.toNat next_x.toNat).grid_member
      = some (next_y.toNat / BLOCK_H, next_x.toNat / BLOCK_W) ∧
    (b (next_y.toNat / BLOCK_H) (next_x.toNat / BLOCK_W) = 0 →
      ((stale b0 b).block_sprites next_y.toNat next_x.toNat).sprite = '-' →
      get_direction_y (stale b0 b) y_direction next_y next_x pad_x
        = some (-y_direction,
            { stale b0 b with
              blocks := set_block b (next_y.toNat / BLOCK_H) (next_x.toNat / BLOCK_W) 1 })) ∧
    (∀ i j, set_block b (next_y.toNat / BLOCK_H) (next_x.toNat / BLOCK_W) 1 i j
      = if i = next_y.toNat / BLOCK_H ∧ j = next_x.toNat / BLOCK_W then 1 else b i j) ∧
    (b (next_y.toNat / BLOCK_H) (next_x.toNat / BLOCK_W) ≠ 0 →
      get_direction_y (stale b0 b) y_direction next_y next_x pad_x
        = some (y_direction, stale b0 b)) := by
  simp only [BLOCK_ROWS, BLOCK_H, BLOCK_COLS, BLOCK_W] at hy hx ⊢
  norm_num at hy hx
  have ho := congrArg BlockMap.grid_member
    (stale_sprites b0 b next_y.toNat next_x.toNat (by omega) (by omega))
  have hr := get_direction_y_region (stale b0 b) y_direction next_y next_x pad_x _ _
    hy0 hy hx0 hx ho
  refine ⟨rfl, ho, ?_, fun i j => rfl, ?_⟩
  · intro hb hs
    rw [hr, if_pos ⟨hb, hs⟩]
    rfl
  · intro hb
    rw [hr, if_neg]
    intro h
    exact hb h.1

set_option maxRecDepth 10000 in
/-- C10, checked at the cell `(3, 20)` on the bottom edge of block `(0, 1)`: on the grid of
intact blocks the call breaks block `(0, 1)`; once its flag is set the call returns the
direction unchanged although the sprite grid has not been rebuilt. -/
theorem C10_horizontal_edge_hit_witness :
    get_direction_y (stale intact intact) (-1) 3 20 20
      = some (1, { stale intact intact with blocks := set_block intact 0 1 1 }) ∧
    get_direction_y (stale intact (set_block intact 0 1 1)) (-1) 3 20 20
      = some (-1, stale intact (set_block intact 0 1 1)) :=
  ⟨(C10_horizontal_edge_hit intact intact (-1) 3 20 20 (by decide) (by decide) (by decide)
      (by decide)).2.2.1 (by rfl) (by rfl),
    (C10_horizontal_edge_hit intact (set_block intact 0 1 1) (-1) 3 20 20 (by decide) (by decide)
      (by decide) (by decide)).2.2.2.2 (by decide)⟩

/-! ## Glyphs -/

theorem glyph_cases (i j : Nat) (hi : i < 4) (hj : j < 17) :
    ((i = 0 ∧ (j = 0 ∨ j = 16)) → glyph i j = '.') ∧
    ((i = 3 ∧ (j = 0 ∨ j = 16)) → glyph i j = APOSTROPHE) ∧
    (((i = 0 ∨ i = 3) ∧ 0 < j ∧ j < 16) → glyph i j = '-') ∧
    ((0 < i ∧ i < 3 ∧ (j = 0 ∨ j = 16)) → glyph i j = '|') ∧
    ((0 < i ∧ i < 3 ∧ 0 < j ∧ j < 16) → glyph i j = ' ') := by
  unfold glyph
  simp only [BLOCK_W, BLOCK_H]
  refine ⟨?_, ?_, ?_, ?_, ?_⟩ <;> intro h <;> split_ifs <;> first | rfl | omega

theorem glyph_ne_nul (i j : Nat) : glyph i j ≠ NUL := by
  unfold glyph
  split_ifs <;> decide

/-- C11 (glyph derivation). Whatever the globals held before, after `init_blocks` every cell
`(r, c)` with `r < 8` and `c < 68` holds the null sprite exactly when its owning block
`blocks[r / BLOCK_H][c / BLOCK_W]` is broken; when the block is intact the sprite is fixed by
`(r mod BLOCK_H, c mod BLOCK_W)` alone: `.` at the top corners, the apostrophe at the bottom
corners, `-` on the rest of the top and bottom rows, `|` on the rest of the left and right
columns, a blank inside. This holds in particular in every state the loop reaches from the
all-intact start. -/
theorem C11_glyph_derivation (g : Game) (r c : Nat)
    (hr : r < BLOCK_ROWS * BLOCK_H) (hc : c < BLOCK_COLS * BLOCK_W) :
    (((init_blocks g).block_sprites r c).sprite = NUL ↔ g.blocks (r / BLOCK_H) (c / BLOCK_W) ≠ 0) ∧
    (g.blocks (r / BLOCK_H) (c / BLOCK_W) = 0 →
      ((r % BLOCK_H = 0 ∧ (c % BLOCK_W = 0 ∨ c % BLOCK_W = BLOCK_W - 1)) →
        ((init_blocks g).block_sprites r c).sprite = '.') ∧
      ((r % BLOCK_H = BLOCK_H - 1 ∧ (c % BLOCK_W = 0 ∨ c % BLOCK_W = BLOCK_W - 1)) →
        ((init_blocks g).block_sprites r c).sprite = APOSTROPHE) ∧
      (((r % BLOCK_H = 0 ∨ r % BLOCK_H = BLOCK_H - 1) ∧
          0 < c % BLOCK_W ∧ c % BLOCK_W < BLOCK_W - 1) →
        ((init_blocks g).block_sprites r c).sprite = '-') ∧
      ((0 < r % BLOCK_H ∧ r % BLOCK_H < BLOCK_H - 1 ∧
          (c % BLOCK_W = 0 ∨ c % BLOCK_W = BLOCK_W - 1)) →
        ((init_blocks g).block_sprites r c).sprite = '|') ∧
      ((0 < r % BLOCK_H ∧ r % BLOCK_H < BLOCK_H - 1 ∧
          0 < c % BLOCK_W ∧ c % BLOCK_W < BLOCK_W - 1) →
        ((init_blocks g).block_sprites r c).sprite = ' ')) ∧
    (∀ keys res s, run initial keys = some (res, s) →
      (((init_blocks s.game).block_sprites r c).sprite = NUL ↔
        s.game.blocks (r / BLOCK_H) (c / BLOCK_W) ≠ 0)) := by
  simp only [BLOCK_ROWS, BLOCK_H, BLOCK_COLS, BLOCK_W] at hr hc ⊢
  have key : ∀ g1 : Game, (((init_blocks g1).block_sprites r c).sprite = NUL ↔
      g1.blocks (r / 4) (c / 17) ≠ 0) := by
    intro g1
    rw [init_blocks_sprites g1 r c (by omega) (by omega)]
    unfold built_cell
    by_cases hb : g1.blocks (r / 4) (c / 17) = 0
    · rw [if_pos hb]
      exact ⟨fun h => absurd h (glyph_ne_nul _ _), fun h => absurd hb h⟩
    · rw [if_neg hb]
      exact ⟨fun _ => hb, fun _ => rfl⟩
  refine ⟨key g, ?_, fun keys res s _ => key s.game⟩
  intro hb
  have e : ((init_blocks g).block_sprites r c).sprite = glyph (r % 4) (c % 17) := by
    rw [init_blocks_sprites g r c (by omega) (by omega)]
    unfold built_cell
    rw [if_pos hb]
  have hg := glyph_cases (r % 4) (c % 17) (by omega) (by omega)
  rw [e]
  exact hg

set_option maxRecDepth 10000 in
/-- C11, checked on the cells `(0, 17)`, `(7, 67)`, `(5, 20)`, `(1, 0)` when only block
`(0, 0)` is broken. -/
theorem C11_glyph_derivation_witness :
    ((init_blocks (built first_broken)).block_sprites 1 0).sprite = NUL ∧
    ((init_blocks (built first_broken)).block_sprites 0 17).sprite = '.' ∧
    ((init_blocks (built first_broken)).block_sprites 7 67).sprite = APOSTROPHE ∧
    ((init_blocks (built first_broken)).block_sprites 5 20).sprite = ' ' :=
  ⟨(C11_glyph_derivation (built first_broken) 1 0 (by decide) (by decide)).1.mpr (by decide),
    ((C11_glyph_derivation (built first_broken) 0 17 (by decide) (by decide)).2.1 (by rfl)).1
      (by decide),
    ((C11_glyph_derivation (built first_broken) 7 67 (by decide) (by decide)).2.1 (by rfl)).2.1
      (by decide),
    ((C11_glyph_derivation (built first_broken) 5 20 (by decide) (by decide)).2.1
      (by rfl)).2.2.2.2 (by decide)⟩

/-! ## Corners and breaking twice -/

theorem make_block_sprite (y x : Nat) (bs : Sprites) (i j : Nat) (hi : i < 4) (hj : j < 17) :
    (make_block y x bs (y + i) (x + j)).sprite = glyph i j := by
  rw [make_block_eq]
  unfold upd_rect
  simp only [BLOCK_H, BLOCK_W]
  have h : y ≤ y + i ∧ y + i < y + 4 ∧ x ≤ x + j ∧ x + j < x + 17 := by omega
  rw [if_pos h]
  have e1 : y + i - y = i := by omega
  have e2 : x + j - x = j := by omega
  rw [e1, e2]

/-- C12 (corner priority). For every origin `(y, x)` and every earlier content of the grid,
`make_block` leaves `.` at the relative cells `(0, 0)` and `(0, 16)` and the apostrophe at
`(3, 0)` and `(3, 16)`; none of these four sprites is the edge `-` or the edge `|`. -/
theorem C12_corner_priority (y x : Nat) (bs : Sprites) :
    (make_block y x bs y x).sprite = '.' ∧
    (make_block y x bs y (x + (BLOCK_W - 1))).sprite = '.' ∧
    (make_block y x bs (y + (BLOCK_H - 1)) x).sprite = APOSTROPHE ∧
    (make_block y x bs (y + (BLOCK_H - 1)) (x + (BLOCK_W - 1))).sprite = APOSTROPHE ∧
    (make_block y x bs y x).sprite ≠ '-' ∧ (make_block y x bs y x).sprite ≠ '|' ∧
    (make_block y x bs y (x + (BLOCK_W - 1))).sprite ≠ '-' ∧
    (make_block y x bs y (x + (BLOCK_W - 1))).sprite ≠ '|' ∧
    (make_block y x bs (y + (BLOCK_H - 1)) x).sprite ≠ '-' ∧
    (make_block y x bs (y + (BLOCK_H - 1)) x).sprite ≠ '|' ∧
    (make_block y x bs (y + (BLOCK_H - 1)) (x + (BLOCK_W - 1))).sprite ≠ '-' ∧
    (make_block y x bs (y + (BLOCK_H - 1)) (x + (BLOCK_W - 1))).sprite ≠ '|' := by
  have h00 : (make_block y x bs y x).sprite = '.' := by
    have h := make_block_sprite y x bs 0 0 (by decide) (by decide)
    exact h
  have h01 : (make_block y x bs y (x + (BLOCK_W - 1))).sprite = '.' := by
    have h := make_block_sprite y x bs 0 16 (by decide) (by decide)
    exact h
  have h30 : (make_block y x bs (y + (BLOCK_H - 1)) x).sprite = APOSTROPHE := by
    have h := make_block_sprite y x bs 3 0 (by decide) (by decide)
    exact h
  have h31 : (make_block y x bs (y + (BLOCK_H - 1)) (x + (BLOCK_W - 1))).sprite = APOSTROPHE := by
    have h := make_block_sprite y x bs 3 16 (by decide) (by decide)
    exact h
  refine ⟨h00, h01, h30, h31, ?_, ?_, ?_, ?_, ?_, ?_, ?_, ?_⟩
  · rw [h00]; decide
  · rw [h00]; decide
  · rw [h01]; decide
  · rw [h01]; decide
  · rw [h30]; decide
  · rw [h30]; decide
  · rw [h31]; decide
  · rw [h31]; decide

theorem break_block_twice (y x : Nat) (bs : Sprites) :
    break_block y x (break_block y x bs) = break_block y x bs := by
  rw [break_block_eq, break_block_eq]
  funext r c
  unfold upd_rect
  by_cases h : y ≤ r ∧ r < y + BLOCK_H ∧ x ≤ c ∧ c < x + BLOCK_W
  · simp only [if_pos h]
  · simp only [if_neg h]

/-- C13 (break is idempotent). For every origin, `break_block` applied twice gives the same
sprite grid as applied once. And for a cell inside the sprite grid whose recorded owner
`(i, j)` is already broken, a call of `get_direction_x` or of `get_direction_y` returns with
the globals exactly as they were: no flag of `blocks` changes. -/
theorem C13_break_idempotent (g : Game) (d next_y next_x pad_x : Int) (i j : Nat)
    (hy0 : 0 ≤ next_y) (hy : next_y < (BLOCK_ROWS * BLOCK_H : Nat))
    (hx0 : 0 ≤ next_x) (hx : next_x < (BLOCK_COLS * BLOCK_W : Nat))
    (ho : (g.block_sprites next_y.toNat next_x.toNat).grid_member = some (i, j))
    (hb : g.blocks i j ≠ 0) :
    (∀ y x bs, break_block y x (break_block y x bs) = break_block y x bs) ∧
    (∃ d1, get_direction_x g d next_y next_x = some (d1, g)) ∧
    (∃ d1, get_direction_y g d next_y next_x pad_x = some (d1, g)) := by
  simp only [BLOCK_ROWS, BLOCK_H, BLOCK_COLS, BLOCK_W] at hy hx
  norm_num at hy hx
  refine ⟨break_block_twice, ?_, ?_⟩
  · by_cases hw : next_x ≥ MAX_X ∨ next_x ≤ 0
    · exact ⟨-d, get_direction_x_wall g d next_y next_x hw⟩
    · have h1 : 0 < next_x := by omega
      have h2 : next_x < 67 := by unfold MAX_X at hw; omega
      refine ⟨d, ?_⟩
      rw [get_direction_x_region g d next_y next_x i j hy0 hy h1 h2 ho, if_neg]
      exact fun h => hb h.1
  · by_cases hw : next_y ≤ 0
    · exact ⟨-d, get_direction_y_flip g d next_y next_x pad_x (Or.inl hw)⟩
    · refine ⟨d, ?_⟩
      rw [get_direction_y_region g d next_y next_x pad_x i j (by omega) hy hx0 hx ho, if_neg]
      exact fun h => hb h.1

set_option maxRecDepth 10000 in
/-- C13, checked at the cell `(3, 5)` of the broken block `(0, 0)`; the sprite grid there
still shows the edge `-` of the time the block was intact. -/
theorem C13_break_idempotent_witness :
    ((stale intact first_broken).block_sprites 3 5).sprite = '-' ∧
    first_broken 0 0 = 1 ∧
    (∃ d1, get_direction_x (stale intact first_broken) 1 3 5 = some (d1, stale intact first_broken)) ∧
    (∃ d1, get_direction_y (stale intact first_broken) 1 3 5 20
      = some (d1, stale intact first_broken)) :=
  ⟨by rfl, by rfl,
    (C13_break_idempotent (stale intact first_broken) 1 3 5 20 0 0 (by decide) (by decide)
      (by decide) (by decide) (by rfl) (by decide)).2⟩

/-! ## The resolvers on a grid with owners -/

theorem owned_init_blocks_start : Owned (init_blocks start_game) := by
  intro r c hr hc
  rw [init_blocks_sprites _ r c hr hc]
  unfold built_cell
  have hb : start_game.blocks (r / 4) (c / 17) = 0 := rfl
  rw [if_pos hb]

theorem owned_init_blocks (g : Game) (h : Owned g) : Owned (init_blocks g) := by
  intro r c hr hc
  rw [init_blocks_sprites _ r c hr hc]
  unfold built_cell
  by_cases hb : g.blocks (r / 4) (c / 17) = 0
  · rw [if_pos hb]
  · rw [if_neg hb]
    exact h r c hr hc

theorem owned_of_sprites (g g1 : Game) (h : Owned g) (e : g1.block_sprites = g.block_sprites) :
    Owned g1 := by
  intro r c hr hc
  rw [e]
  exact h r c hr hc

/-- On a grid with owners and with `next_y >= 0`, `get_direction_x` returns; the result is
the direction or its negation, and the direction is kept only strictly between the walls. -/
theorem get_direction_x_total (g : Game) (d y x : Int) (ho : Owned g) (hy0 : 0 ≤ y) :
    ∃ dx g1, get_direction_x g d y x = some (dx, g1) ∧ Effect g g1 ∧
      (dx = d ∨ dx = -d) ∧ (dx = d → d ≠ 0 → 0 < x ∧ x < MAX_X) ∧
      (8 ≤ y → 0 < x → x < MAX_X → dx = d ∧ g1 = g) := by
  by_cases hw : x ≥ MAX_X ∨ x ≤ 0
  · refine ⟨-d, g, get_direction_x_wall g d y x hw, effect_refl g, Or.inr rfl, ?_, ?_⟩
    · intro h hd; omega
    · intro _ h1 h2; omega
  · have h1 : 0 < x := by omega
    have h2 : x < MAX_X := by omega
    by_cases hy : y < 8
    · have hx : x < 67 := by unfold MAX_X at h2; exact h2
      have hown := ho y.toNat x.toNat (by omega) (by omega)
      have e := get_direction_x_region g d y x _ _ hy0 hy h1 hx hown
      by_cases hc : g.blocks (y.toNat / 4) (x.toNat / 17) = 0 ∧
          (g.block_sprites y.toNat x.toNat).sprite = '|'
      · rw [if_pos hc] at e
        refine ⟨-d, _, e, get_direction_x_effect g d y x _ e, Or.inr rfl, ?_, ?_⟩
        · intro _ _; exact ⟨h1, h2⟩
        · intro h8; omega
      · rw [if_neg hc] at e
        refine ⟨d, g, e, effect_refl g, Or.inl rfl, ?_, ?_⟩
        · intro _ _; exact ⟨h1, h2⟩
        · intro h8; omega
    · have e := get_direction_x_below g d y x (by omega) hw
      exact ⟨d, g, e, effect_refl g, Or.inl rfl, fun _ _ => ⟨h1, h2⟩, fun _ _ _ => ⟨rfl, rfl⟩⟩

/-- On a grid with owners and with `next_x >= 0`, `get_direction_y` returns; the result is
the direction, its negation, or `0`; it is `0` exactly below the floor, and the direction is
kept only between the ceiling and the floor. -/
theorem get_direction_y_total (g : Game) (d y x p : Int) (ho : Owned g) (hx0 : 0 ≤ x) :
    ∃ dy g2, get_direction_y g d y x p = some (dy, g2) ∧ Effect g g2 ∧
      (dy = d ∨ dy = -d ∨ dy = 0) ∧ (d ≠ 0 → (dy = 0 ↔ y > MAX_Y)) ∧
      (dy = d → d ≠ 0 → 0 < y ∧ y ≤ MAX_Y) ∧
      (8 ≤ y → y ≤ MAX_Y → y ≠ PAD_Y → dy = d ∧ g2 = g) := by
  by_cases hf : y ≤ 0 ∨ (y = PAD_Y ∧ x ≥ p ∧ x ≤ p + 3)
  · refine ⟨-d, g, get_direction_y_flip g d y x p hf, effect_refl g, Or.inr (Or.inl rfl), ?_, ?_, ?_⟩
    · intro hd
      constructor
      · intro h; omega
      · intro h; unfold MAX_Y PAD_Y at *; omega
    · intro h hd; omega
    · intro h8 _ hp; unfold PAD_Y at *; omega
  · have h1 : 0 < y := by omega
    by_cases hy : y < 8
    · by_cases hx : x < 68
      · have hown := ho y.toNat x.toNat (by omega) (by omega)
        have e := get_direction_y_region g d y x p _ _ h1 hy hx0 hx hown
        have hm : ¬ y > MAX_Y := by unfold MAX_Y; omega
        by_cases hc : g.blocks (y.toNat / 4) (x.toNat / 17) = 0 ∧
            (g.block_sprites y.toNat x.toNat).sprite = '-'
        · rw [if_pos hc] at e
          refine ⟨-d, _, e, get_direction_y_effect g d y x p _ e, Or.inr (Or.inl rfl), ?_, ?_, ?_⟩
          · intro hd; exact ⟨fun h => by omega, fun h => absurd h hm⟩
          · intro _ _; unfold MAX_Y; omega
          · intro h8; omega
        · rw [if_neg hc] at e
          refine ⟨d, g, e, effect_refl g, Or.inl rfl, ?_, ?_, ?_⟩
          · intro hd; exact ⟨fun h => absurd h hd, fun h => absurd h hm⟩
          · intro _ _; unfold MAX_Y; omega
          · intro h8; omega
      · have e : get_direction_y g d y x p = some (d, g) := by
          unfold get_direction_y
          have hg : ¬ (y < (BLOCK_ROWS * BLOCK_H : Nat) ∧ x < (BLOCK_COLS * BLOCK_W : Nat)) := by
            simp only [BLOCK_COLS, BLOCK_W]
            intro h
            have := h.2
            norm_num at this
            omega
          have hm : ¬ y > MAX_Y := by unfold MAX_Y; omega
          rw [if_neg hf, if_neg hg, if_neg hm]
        refine ⟨d, g, e, effect_refl g, Or.inl rfl, ?_, ?_, ?_⟩
        · intro hd; exact ⟨fun h => absurd h hd, fun h => by unfold MAX_Y at h; omega⟩
        · intro _ _; unfold MAX_Y; omega
        · intro h8; omega
    · have e := get_direction_y_low g d y x p hf (by omega)
      by_cases hm : y > MAX_Y
      · rw [if_pos hm] at e
        refine ⟨0, g, e, effect_refl g, Or.inr (Or.inr rfl), ?_, ?_, ?_⟩
        · intro _; exact ⟨fun _ => hm, fun _ => rfl⟩
        · intro h hd; exact absurd h.symm hd
        · intro _ h; omega
      · rw [if_neg hm] at e
        refine ⟨d, g, e, effect_refl g, Or.inl rfl, ?_, ?_, ?_⟩
        · intro hd; exact ⟨fun h => absurd h hd, fun h => absurd h hm⟩
        · intro _ _; omega
        · intro _ _ _; exact ⟨rfl, rfl⟩

/-! ## The loop invariant -/

theorem inv_initial : Inv initial := by
  refine ⟨by decide, by decide, by decide, by decide, Or.inl rfl, Or.inl rfl, ?_,
    owned_init_blocks_start⟩
  intro _
  exact ⟨rfl, rfl, rfl⟩

theorem dir_flip (d dx : Int) (hd : d = 1 ∨ d = -1) (h : dx = d ∨ dx = -d) :
    dx = 1 ∨ dx = -1 := by
  omega

theorem inv_mk (bx by1 p dx dy dc : Int) (g : Game) (h1 : 1 ≤ bx) (h2 : bx ≤ MAX_X - 1)
    (h3 : 1 ≤ by1) (h4 : by1 ≤ MAX_Y) (h5 : dx = 1 ∨ dx = -1) (h6 : dy = 1 ∨ dy = -1)
    (ho : Owned g) :
    Inv { ball_x := bx, ball_y := by1, pad_x := p, x_direction := dx, y_direction := dy,
          delay_count := dc, game := g } := by
  unfold Inv
  refine ⟨?_, h2, h3, h4, h5, h6, ?_, owned_init_blocks g ho⟩
  · show 0 ≤ bx
    omega
  · intro h0
    have h7 : bx = 0 := h0
    omega

theorem dir_ne_zero (d : Int) (hd : d = 1 ∨ d = -1) : d ≠ 0 := by
  omega

theorem dir_flip_nonzero (d dy : Int) (hd : d = 1 ∨ d = -1) (h : dy = d ∨ dy = -d ∨ dy = 0)
    (h0 : dy ≠ 0) : dy = 1 ∨ dy = -1 := by
  omega

theorem next_y_nonneg (b d : Int) (h : 1 ≤ b) (hd : d = 1 ∨ d = -1) : 0 ≤ b + d := by
  omega

theorem next_x_nonneg (b d : Int) (h : 0 ≤ b) (hd : d = 1 ∨ d = -1) (hz : b = 0 → d = 1) :
    0 ≤ b + d := by
  by_cases h0 : b = 0
  · have := hz h0; omega
  · omega

theorem x_commit (b d dx : Int) (h1 : b ≤ MAX_X - 1) (h0 : 0 ≤ b)
    (ax : dx = d → 0 < b + d ∧ b + d < MAX_X) (hz : b = 0 → dx = d) :
    1 ≤ (if dx = d then b + d else b) ∧ (if dx = d then b + d else b) ≤ MAX_X - 1 := by
  by_cases e : dx = d
  · rw [if_pos e]
    have := ax e
    omega
  · rw [if_neg e]
    have : b ≠ 0 := fun h => e (hz h)
    omega

theorem y_commit (b d dy : Int) (h0 : 1 ≤ b) (h1 : b ≤ MAX_Y)
    (ay : dy = d → 0 < b + d ∧ b + d ≤ MAX_Y) :
    1 ≤ (if dy = d then b + d else b) ∧ (if dy = d then b + d else b) ≤ MAX_Y := by
  by_cases e : dy = d
  · rw [if_pos e]
    have := ay e
    omega
  · rw [if_neg e]
    exact ⟨h0, h1⟩

/-- What a physics iteration does from a state of the invariant: both resolvers return, on
grids that record every owner, the directions they return are `1` or `-1` unless the ball is
lost, and the committed ball position is inside the arena and out of column `0`. -/
theorem physics_inv (s : State) (h : Inv s) :
    ∃ dx dy g1 g2,
      get_direction_x (init_blocks s.game) s.x_direction (s.ball_y + s.y_direction)
        (s.ball_x + s.x_direction) = some (dx, g1) ∧
      get_direction_y g1 s.y_direction (s.ball_y + s.y_direction)
        (s.ball_x + s.x_direction) s.pad_x = some (dy, g2) ∧
      Effect (init_blocks s.game) g1 ∧ Effect g1 g2 ∧
      (dy = 0 ↔ s.ball_y + s.y_direction > MAX_Y) ∧
      Owned g2 ∧ (dx = 1 ∨ dx = -1) ∧ (dy ≠ 0 → dy = 1 ∨ dy = -1) ∧
      (1 ≤ (if dx = s.x_direction then s.ball_x + s.x_direction else s.ball_x) ∧
        (if dx = s.x_direction then s.ball_x + s.x_direction else s.ball_x) ≤ MAX_X - 1) ∧
      (1 ≤ (if dy = s.y_direction then s.ball_y + s.y_direction else s.ball_y) ∧
        (if dy = s.y_direction then s.ball_y + s.y_direction else s.ball_y) ≤ MAX_Y) := by
  obtain ⟨hx0, hx1, hy0, hy1, hdx, hdy, hearly, hown⟩ := h
  have hdx0 : s.x_direction ≠ 0 := dir_ne_zero _ hdx
  have hdy0 : s.y_direction ≠ 0 := dir_ne_zero _ hdy
  obtain ⟨dx, g1, ex, fx, cx, ax, bx⟩ :=
    get_direction_x_total (init_blocks s.game) s.x_direction (s.ball_y + s.y_direction)
      (s.ball_x + s.x_direction) hown (next_y_nonneg _ _ hy0 hdy)
  have hown1 : Owned g1 := owned_of_sprites _ _ hown fx.1
  have hnx : 0 ≤ s.ball_x + s.x_direction :=
    next_x_nonneg _ _ hx0 hdx (fun h0 => (hearly h0).1)
  obtain ⟨dy, g2, ey, fy, cy, zy, ay, _⟩ :=
    get_direction_y_total g1 s.y_direction (s.ball_y + s.y_direction)
      (s.ball_x + s.x_direction) s.pad_x hown1 hnx
  have hown2 : Owned g2 := owned_of_sprites _ _ hown1 fy.1
  have hz : s.ball_x = 0 → dx = s.x_direction := by
    intro h0
    obtain ⟨e1, e2, e3⟩ := hearly h0
    refine (bx ?_ ?_ ?_).1
    · rw [e2, e3]; decide
    · rw [h0, e1]; decide
    · rw [h0, e1]; decide
  exact ⟨dx, dy, g1, g2, ex, ey, fx, fy, zy hdy0, hown2, dir_flip _ _ hdx cx,
    fun h0 => dir_flip_nonzero _ _ hdy cy h0,
    x_commit _ _ _ hx1 hx0 (fun e => ax e hdx0) hz,
    y_commit _ _ _ hy0 hy1 (fun e => ay e hdy0)⟩

theorem finish_tick_inv (key : Key) (m : State) (h : Inv m) : Inv (finish_tick key m).2 := by
  unfold finish_tick
  by_cases hw : game_won m.game.blocks ≠ 0
  · rw [if_pos hw]; exact h
  · rw [if_neg hw]; exact h

/-- From a state of the invariant every iteration returns, in a state of the invariant, and
does not move the ball back to column `0`. -/
theorem tick_total (key : Key) (s : State) (h : Inv s) :
    ∃ r s1, tick key s = some (r, s1) ∧ Inv s1 ∧ (1 ≤ s.ball_x → 1 ≤ s1.ball_x) := by
  by_cases hd : s.delay_count ≥ BALL_DELAY
  · obtain ⟨dx, dy, g1, g2, ex, ey, -, -, -, hown2, hdx, hdy, hbx, hby⟩ := physics_inv s h
    rw [tick_physics key s dx dy g1 g2 hd ex ey]
    by_cases h0 : dy = 0
    · rw [if_pos h0]
      exact ⟨GameResult.Lost, _, rfl,
        inv_mk _ s.ball_y s.pad_x dx s.y_direction s.delay_count g2 hbx.1 hbx.2 h.2.2.1
          h.2.2.2.1 hdx h.2.2.2.2.2.1 hown2, fun _ => hbx.1⟩
    · rw [if_neg h0]
      have hi := inv_mk _ _ s.pad_x dx dy 0 g2 hbx.1 hbx.2 hby.1 hby.2 hdx (hdy h0) hown2
      refine ⟨(finish_tick key _).1, (finish_tick key _).2, rfl, finish_tick_inv key _ hi,
        fun _ => ?_⟩
      rw [(finish_tick_ball key _).2.1]
      exact hbx.1
  · rw [tick_idle key s hd]
    obtain ⟨hx0, hx1, hy0, hy1, hdx, hdy, hearly, hown⟩ := h
    have hi : Inv { s with game := init_blocks s.game } :=
      ⟨hx0, hx1, hy0, hy1, hdx, hdy, hearly, owned_init_blocks _ hown⟩
    refine ⟨(finish_tick key { s with game := init_blocks s.game }).1,
      (finish_tick key { s with game := init_blocks s.game }).2, rfl,
      finish_tick_inv key _ hi, fun h1 => ?_⟩
    rw [(finish_tick_ball key { s with game := init_blocks s.game }).2.1]
    exact h1

theorem run_total (keys : List Key) (s : State) (h : Inv s) :
    ∃ r s1, run s keys = some (r, s1) ∧ Inv s1 ∧ (1 ≤ s.ball_x → 1 ≤ s1.ball_x) := by
  induction keys generalizing s with
  | nil => exact ⟨GameResult.Playing, s, rfl, h, fun h1 => h1⟩
  | cons key keys ih =>
    obtain ⟨r, m, ht, hm, hb⟩ := tick_total key s h
    cases r with
    | Playing =>
      obtain ⟨r1, s1, hr, hs1, hb1⟩ := ih m hm
      refine ⟨r1, s1, ?_, hs1, fun h1 => hb1 (hb h1)⟩
      rw [run_cons_playing key keys s m ht]; exact hr
    | Won => exact ⟨GameResult.Won, m, by simp only [run, ht], hm, hb⟩
    | Lost => exact ⟨GameResult.Lost, m, by simp only [run, ht], hm, hb⟩

/-! ## Cadence of the physics -/

/-- The two ways an iteration can go: without physics it is the win check and input step on
the state with the grid rebuilt; with physics both resolvers have returned and the iteration
is a loss or the win check and input step on the committed state. -/
theorem tick_cases (key : Key) (s : State) (r : GameResult) (s1 : State)
    (h : tick key s = some (r, s1)) :
    (¬ s.delay_count ≥ BALL_DELAY ∧
      (r, s1) = finish_tick key { s with game := init_blocks s.game }) ∨
    (s.delay_count ≥ BALL_DELAY ∧ ∃ dx dy g1 g2,
      get_direction_x (init_blocks s.game) s.x_direction (s.ball_y + s.y_direction)
        (s.ball_x + s.x_direction) = some (dx, g1) ∧
      get_direction_y g1 s.y_direction (s.ball_y + s.y_direction)
        (s.ball_x + s.x_direction) s.pad_x = some (dy, g2) ∧
      ((dy = 0 ∧ r = GameResult.Lost ∧
          s1 = { s with
            ball_x := if dx = s.x_direction then s.ball_x + s.x_direction else s.ball_x,
            x_direction := dx, game := g2 }) ∨
        (dy ≠ 0 ∧ (r, s1) = finish_tick key
          { s with
            ball_x := if dx = s.x_direction then s.ball_x + s.x_direction else s.ball_x,
            ball_y := if dy = s.y_direction then s.ball_y + s.y_direction else s.ball_y,
            x_direction := dx, y_direction := dy, delay_count := 0, game := g2 }))) := by
  by_cases hd : s.delay_count ≥ BALL_DELAY
  · right
    refine ⟨hd, ?_⟩
    cases hx : get_direction_x (init_blocks s.game) s.x_direction (s.ball_y + s.y_direction)
        (s.ball_x + s.x_direction) with
    | none => simp [tick, hd, hx] at h
    | some rx =>
      obtain ⟨dx, g1⟩ := rx
      cases hy : get_direction_y g1 s.y_direction (s.ball_y + s.y_direction)
          (s.ball_x + s.x_direction) s.pad_x with
      | none => simp [tick, hd, hx, hy] at h
      | some ry =>
        obtain ⟨dy, g2⟩ := ry
        rw [tick_physics key s dx dy g1 g2 hd hx hy] at h
        refine ⟨dx, dy, g1, g2, rfl, hy, ?_⟩
        by_cases h0 : dy = 0
        · rw [if_pos h0] at h
          simp only [Option.some.injEq, Prod.mk.injEq] at h
          exact Or.inl ⟨h0, h.1.symm, h.2.symm⟩
        · rw [if_neg h0] at h
          simp only [Option.some.injEq] at h
          exact Or.inr ⟨h0, h.symm⟩
  · left
    rw [tick_idle key s hd] at h
    simp only [Option.some.injEq] at h
    exact ⟨hd, h.symm⟩

theorem finish_tick_playing (key : Key) (m : State) (r : GameResult) (s1 : State)
    (h : (r, s1) = finish_tick key m) (hr : r = GameResult.Playing) :
    s1.delay_count = m.delay_count + 1 ∧ s1.pad_x = m.pad_x + get_keypress key m.pad_x := by
  unfold finish_tick at h
  by_cases hw : game_won m.game.blocks ≠ 0
  · rw [if_pos hw] at h
    simp only [Prod.mk.injEq] at h
    rw [hr] at h
    exact absurd h.1 (by decide)
  · rw [if_neg hw] at h
    simp only [Prod.mk.injEq] at h
    rw [h.2]
    exact ⟨rfl, rfl⟩

theorem delay_step (n : Nat) (d : Int) (h : d = ((n % 4 : Nat) : Int) + 1) :
    (¬ d ≥ 4 → d + 1 = (((n + 1) % 4 : Nat) : Int) + 1) ∧
    (d ≥ 4 → (0 : Int) + 1 = (((n + 1) % 4 : Nat) : Int) + 1) := by
  omega

theorem tick_delay (key : Key) (s s1 : State) (n : Nat)
    (h : tick key s = some (GameResult.Playing, s1))
    (hd : s.delay_count = ((n % 4 : Nat) : Int) + 1) :
    s1.delay_count = (((n + 1) % 4 : Nat) : Int) + 1 := by
  have hstep := delay_step n s.delay_count hd
  rcases tick_cases key s _ s1 h with ⟨hf, e⟩ | ⟨hf, dx, dy, g1, g2, -, -, hc⟩
  · rw [(finish_tick_playing key _ _ s1 e rfl).1]
    exact hstep.1 hf
  · rcases hc with ⟨-, hl, -⟩ | ⟨-, e⟩
    · exact absurd hl (by decide)
    · rw [(finish_tick_playing key _ _ s1 e rfl).1]
      exact hstep.2 hf

theorem run_delay (keys : List Key) (s s1 : State) (n : Nat)
    (h : run s keys = some (GameResult.Playing, s1))
    (hd : s.delay_count = ((n % 4 : Nat) : Int) + 1) :
    s1.delay_count = (((n + keys.length) % 4 : Nat) : Int) + 1 := by
  induction keys generalizing s n with
  | nil =>
    simp only [run, Option.some.injEq, Prod.mk.injEq, true_and] at h
    rw [← h]; exact hd
  | cons key keys ih =>
    cases ht : tick key s with
    | none => simp [run, ht] at h
    | some p =>
      obtain ⟨r1, m⟩ := p
      cases r1 with
      | Playing =>
        rw [run_cons_playing key keys s m ht] at h
        have := ih m (n + 1) h (tick_delay key s m n ht hd)
        rw [this, List.length_cons]
        congr 3
        omega
      | Won => simp [run, ht] at h
      | Lost => simp [run, ht] at h

theorem fires_iff (n : Nat) (d : Int) (h : d = ((n % 4 : Nat) : Int) + 1) :
    d ≥ 4 ↔ (n + 1) % 4 = 0 := by
  omega

/-- C14 (physics cadence). Let the loop, started from the initial state (`delay_count = 1`),
still be playing after the iterations of `keys`. Then `delay_count` is
`keys.length mod 4 + 1`, so the guard of line 283, under which alone the resolvers are
called, holds for the next iteration exactly when its 1-based index `keys.length + 1` is a
multiple of `BALL_DELAY = 4`. When the index is no multiple of `4` the iteration is the
win check and input step alone: `ball_x`, `ball_y`, `x_direction`, `y_direction` and every
block flag are as before. When the index is a multiple of `4` the iteration calls
`get_direction_x` on the rebuilt grid and `get_direction_y` on the globals that call left,
both return, and the iteration is what lines 285-310 make of their results `dx` and `dy`:
a loss when `dy = 0`, else the win check and input step on the state with the ball
committed, the directions `dx` and `dy` stored, and the globals as the resolvers left them. -/
theorem C14_physics_cadence (keys : List Key) (s : State) (key : Key)
    (h : run initial keys = some (GameResult.Playing, s)) :
    BALL_DELAY = 4 ∧
    s.delay_count = ((keys.length % 4 : Nat) : Int) + 1 ∧
    (s.delay_count ≥ BALL_DELAY ↔ (keys.length + 1) % 4 = 0) ∧
    ((keys.length + 1) % 4 ≠ 0 →
      tick key s = some (finish_tick key { s with game := init_blocks s.game }) ∧
      ∃ r s1, tick key s = some (r, s1) ∧ s1.ball_x = s.ball_x ∧ s1.ball_y = s.ball_y ∧
        s1.x_direction = s.x_direction ∧ s1.y_direction = s.y_direction ∧
        s1.game.blocks = s.game.blocks) ∧
    ((keys.length + 1) % 4 = 0 →
      ∃ dx dy g1 g2,
        get_direction_x (init_blocks s.game) s.x_direction (s.ball_y + s.y_direction)
          (s.ball_x + s.x_direction) = some (dx, g1) ∧
        get_direction_y g1 s.y_direction (s.ball_y + s.y_direction)
          (s.ball_x + s.x_direction) s.pad_x = some (dy, g2) ∧
        tick key s =
          (if dy = 0 then
            some (GameResult.Lost,
              { s with
                ball_x := if dx = s.x_direction then s.ball_x + s.x_direction else s.ball_x,
                x_direction := dx, game := g2 })
          else
            some (finish_tick key
              { s with
                ball_x := if dx = s.x_direction then s.ball_x + s.x_direction else s.ball_x,
                ball_y := if dy = s.y_direction then s.ball_y + s.y_direction else s.ball_y,
                x_direction := dx, y_direction := dy, delay_count := 0, game := g2 })) ∧
        ∃ r s1, tick key s = some (r, s1) ∧
          s1.ball_x = (if dx = s.x_direction then s.ball_x + s.x_direction else s.ball_x) ∧
          s1.x_direction = dx ∧ s1.game = g2 ∧
          (dy = 0 ↔ r = GameResult.Lost) ∧
          (dy ≠ 0 →
            s1.ball_y = (if dy = s.y_direction then s.ball_y + s.y_direction else s.ball_y) ∧
            s1.y_direction = dy)) := by
  have hd : s.delay_count = ((keys.length % 4 : Nat) : Int) + 1 := by
    have := run_delay keys initial s 0 h rfl
    rw [Nat.zero_add] at this
    exact this
  have hf := fires_iff keys.length s.delay_count hd
  refine ⟨rfl, hd, hf, ?_, ?_⟩
  · intro hne
    have hnf : ¬ s.delay_count ≥ BALL_DELAY := fun hge => hne (hf.mp hge)
    have e := tick_idle key s hnf
    refine ⟨e, (finish_tick key { s with game := init_blocks s.game }).1,
      (finish_tick key { s with game := init_blocks s.game }).2, e, ?_⟩
    obtain ⟨-, h1, h2, h3, h4⟩ := finish_tick_ball key { s with game := init_blocks s.game }
    refine ⟨h1, h2, h3, h4, ?_⟩
    rw [finish_tick_game]
    rfl
  · intro hm
    have hfire : s.delay_count ≥ BALL_DELAY := hf.mpr hm
    have hi : Inv s := by
      obtain ⟨r1, s1, h1, hi1, -⟩ := run_total keys initial inv_initial
      rw [h] at h1
      simp only [Option.some.injEq, Prod.mk.injEq] at h1
      rw [h1.2]; exact hi1
    obtain ⟨dx, dy, g1, g2, ex, ey, -, -, -, -, -, -, -, -⟩ := physics_inv s hi
    have et := tick_physics key s dx dy g1 g2 hfire ex ey
    refine ⟨dx, dy, g1, g2, ex, ey, et, ?_⟩
    by_cases h0 : dy = 0
    · rw [if_pos h0] at et
      refine ⟨GameResult.Lost, _, et, rfl, rfl, rfl, ⟨fun _ => rfl, fun _ => h0⟩, ?_⟩
      intro hne; exact absurd h0 hne
    · rw [if_neg h0] at et
      generalize hmid : ({ s with
          ball_x := if dx = s.x_direction then s.ball_x + s.x_direction else s.ball_x,
          ball_y := if dy = s.y_direction then s.ball_y + s.y_direction else s.ball_y,
          x_direction := dx, y_direction := dy, delay_count := 0, game := g2 } : State) = m at et
      obtain ⟨hne, hbx, hby, hdx, hdy⟩ := finish_tick_ball key m
      refine ⟨(finish_tick key m).1, (finish_tick key m).2, et, ?_, ?_, ?_, ?_, ?_⟩
      · rw [hbx, ← hmid]
      · rw [hdx, ← hmid]
      · rw [finish_tick_game, ← hmid]
      · exact ⟨fun h1 => absurd h1 h0, fun h1 => absurd h1 hne⟩
      · intro _
        refine ⟨?_, ?_⟩
        · rw [hby, ← hmid]
        · rw [hdy, ← hmid]

set_option maxRecDepth 10000 in
/-- C14, checked after the three iterations with keys left, left, right: the fourth
iteration fires, both resolvers return the directions unchanged, and the ball moves from
`(0, 8)` to `(1, 9)`; the iteration before it, the third, left the ball where it was. -/
theorem C14_physics_cadence_witness :
    run initial [Key.left, Key.left, Key.right] = some (GameResult.Playing, after_three) ∧
    after_three.delay_count = 4 ∧
    (after_three.delay_count ≥ BALL_DELAY ↔ ([Key.left, Key.left, Key.right].length + 1) % 4 = 0) ∧
    (∃ dx dy g1 g2,
      get_direction_x (init_blocks after_three.game) 1 9 1 = some (dx, g1) ∧
      get_direction_y g1 1 9 1 19 = some (dy, g2) ∧
      ∃ r s1, tick Key.other after_three = some (r, s1) ∧ s1.x_direction = dx ∧
        s1.game = g2) ∧
    get_direction_x (init_blocks after_three.game) 1 9 1
      = some (1, init_blocks after_three.game) ∧
    get_direction_y (init_blocks after_three.game) 1 9 1 19
      = some (1, init_blocks after_three.game) ∧
    (run initial [Key.left, Key.left, Key.right, Key.other]).map
        (fun p => (p.1, p.2.ball_x, p.2.ball_y, p.2.x_direction, p.2.y_direction,
          p.2.delay_count))
      = some (GameResult.Playing, 1, 9, 1, 1, 1) ∧
    (run initial [Key.left, Key.left]).map
        (fun p => (p.1, p.2.ball_x, p.2.ball_y, p.2.delay_count))
      = some (GameResult.Playing, 0, 8, 3) := by
  have hc := C14_physics_cadence [Key.left, Key.left, Key.right] after_three Key.other rfl
  refine ⟨rfl, rfl, hc.2.2.1, ?_, by rfl, by rfl, by rfl, by rfl⟩
  obtain ⟨dx, dy, g1, g2, ex, ey, -, r, s1, ht, -, hdx, hg, -, -⟩ := hc.2.2.2.2 (by decide)
  exact ⟨dx, dy, g1, g2, ex, ey, r, s1, ht, hdx, hg⟩

/-! ## The first physics iteration -/

theorem game_won_intact (b : Blocks) (h : ∀ i j, b i j = 0) : game_won b = 0 := by
  rcases game_won_eq b with ⟨-, ha⟩ | ⟨e, -⟩
  · exact absurd (h 0 0) (ha 0 0 (by decide) (by decide))
  · exact e

theorem finish_tick_intact (key : Key) (m : State) (h : ∀ i j, m.game.blocks i j = 0) :
    finish_tick key m
      = (GameResult.Playing,
          { m with pad_x := m.pad_x + get_keypress key m.pad_x,
                   delay_count := m.delay_count + 1 }) := by
  unfold finish_tick
  rw [game_won_intact _ h, if_neg (by decide)]

theorem early_initial : Early 0 initial :=
  ⟨rfl, rfl, rfl, rfl, rfl, by decide, fun _ _ => rfl⟩

/-- An iteration from an early state keeps playing; it leads to the next early state, or, when
it is the fourth, moves the ball to column `1`. -/
theorem early_tick (key : Key) (n : Nat) (s : State) (h : Early n s) :
    ∃ s1, tick key s = some (GameResult.Playing, s1) ∧ (Early (n + 1) s1 ∨ 1 ≤ s1.ball_x) := by
  obtain ⟨e1, e2, e3, e4, e5, e6, e7⟩ := h
  by_cases hn : n = 3
  · have hd : s.delay_count ≥ BALL_DELAY := by
      rw [e5, hn]; decide
    have hw : ¬ (s.ball_x + s.x_direction ≥ MAX_X ∨ s.ball_x + s.x_direction ≤ 0) := by
      rw [e1, e2]; decide
    have hx := get_direction_x_below (init_blocks s.game) s.x_direction
      (s.ball_y + s.y_direction) (s.ball_x + s.x_direction) (by rw [e3, e4]; decide) hw
    have hf : ¬ (s.ball_y + s.y_direction ≤ 0 ∨ (s.ball_y + s.y_direction = PAD_Y ∧
        s.ball_x + s.x_direction ≥ s.pad_x ∧ s.ball_x + s.x_direction ≤ s.pad_x + 3)) := by
      rw [e3, e4]
      rintro (h1 | ⟨h1, -⟩)
      · exact absurd h1 (by decide)
      · exact absurd h1 (by decide)
    have hy := get_direction_y_low (init_blocks s.game) s.y_direction
      (s.ball_y + s.y_direction) (s.ball_x + s.x_direction) s.pad_x hf (by rw [e3, e4]; decide)
    have hm : ¬ s.ball_y + s.y_direction > MAX_Y := by rw [e3, e4]; decide
    rw [if_neg hm] at hy
    have hy0 : ¬ s.y_direction = 0 := by rw [e4]; decide
    rw [tick_physics key s _ _ _ _ hd hx hy, if_neg hy0,
      finish_tick_intact key
        { s with
          ball_x := if s.x_direction = s.x_direction then s.ball_x + s.x_direction else s.ball_x,
          ball_y := if s.y_direction = s.y_direction then s.ball_y + s.y_direction else s.ball_y,
          x_direction := s.x_direction, y_direction := s.y_direction, delay_count := 0,
          game := init_blocks s.game } e7]
    refine ⟨_, rfl, Or.inr ?_⟩
    show 1 ≤ (if s.x_direction = s.x_direction then s.ball_x + s.x_direction else s.ball_x)
    rw [if_pos rfl, e1, e2]
    decide
  · have hd : ¬ s.delay_count ≥ BALL_DELAY := by
      rw [e5]; unfold BALL_DELAY; omega
    rw [tick_idle key s hd, finish_tick_intact key { s with game := init_blocks s.game } e7]
    refine ⟨_, rfl, Or.inl ⟨e1, e2, e3, e4, ?_, by omega, e7⟩⟩
    show s.delay_count + 1 = ((n + 1 : Nat) : Int) + 1
    rw [e5]; push_cast; rfl

/-- After four or more iterations from an early state the ball has left column `0`. -/
theorem run_leaves_column (keys : List Key) (n : Nat) (s : State) (r : GameResult) (s1 : State)
    (hi : Inv s) (hk : Early n s ∨ 1 ≤ s.ball_x) (h : run s keys = some (r, s1))
    (hl : 4 ≤ n + keys.length) : 1 ≤ s1.ball_x := by
  induction keys generalizing s n with
  | nil =>
    simp only [run, Option.some.injEq, Prod.mk.injEq] at h
    rw [← h.2]
    rcases hk with he | hb
    · have := he.2.2.2.2.2.1
      simp only [List.length_nil] at hl
      omega
    · exact hb
  | cons key keys ih =>
    obtain ⟨r1, m, ht, hm, hb⟩ := tick_total key s hi
    have hk1 : (Early (n + 1) m ∨ 1 ≤ m.ball_x) ∧ (r1 ≠ GameResult.Playing → 1 ≤ m.ball_x) := by
      rcases hk with he | hb1
      · obtain ⟨m1, ht1, hm1⟩ := early_tick key n s he
        rw [ht] at ht1
        simp only [Option.some.injEq, Prod.mk.injEq] at ht1
        rw [ht1.2]
        exact ⟨hm1, fun hne => absurd ht1.1 hne⟩
      · exact ⟨Or.inr (hb hb1), fun _ => hb hb1⟩
    cases r1 with
    | Playing =>
      rw [run_cons_playing key keys s m ht] at h
      refine ih (n + 1) m hm hk1.1 h ?_
      simp only [List.length_cons] at hl
      omega
    | Won =>
      simp only [run, ht, Option.some.injEq, Prod.mk.injEq] at h
      rw [← h.2]
      exact hk1.2 (by decide)
    | Lost =>
      simp only [run, ht, Option.some.injEq, Prod.mk.injEq] at h
      rw [← h.2]
      exact hk1.2 (by decide)

/-- C17 (direction invariant). For every list of keys the loop run from the initial state
(directions `(1, 1)`) returns, and in the state it reaches `x_direction` and `y_direction`
are each `1` or `-1`; the value `0` that `get_direction_y` returns below the floor ends the
game and is not stored. -/
theorem C17_direction_invariant (keys : List Key) :
    ∃ r s, run initial keys = some (r, s) ∧
      (s.x_direction = 1 ∨ s.x_direction = -1) ∧ (s.y_direction = 1 ∨ s.y_direction = -1) ∧
      s.y_direction ≠ 0 ∧
      (r = GameResult.Playing → ∀ key dx dy g1 g2, s.delay_count ≥ BALL_DELAY →
        get_direction_x (init_blocks s.game) s.x_direction (s.ball_y + s.y_direction)
          (s.ball_x + s.x_direction) = some (dx, g1) →
        get_direction_y g1 s.y_direction (s.ball_y + s.y_direction)
          (s.ball_x + s.x_direction) s.pad_x = some (dy, g2) →
        dy = 0 → ∃ s1, tick key s = some (GameResult.Lost, s1) ∧
          s1.y_direction = s.y_direction) := by
  obtain ⟨r, s, h, hi, -⟩ := run_total keys initial inv_initial
  refine ⟨r, s, h, hi.2.2.2.2.1, hi.2.2.2.2.2.1, dir_ne_zero _ hi.2.2.2.2.2.1, ?_⟩
  intro _ key dx dy g1 g2 hd hx hy h0
  rw [tick_physics key s dx dy g1 g2 hd hx hy, if_pos h0]
  exact ⟨_, rfl, rfl⟩

/-- C19 (the ball stays inside the arena). For every list of keys the loop run from the
initial state returns, and in the state it reaches `0 <= ball_x <= MAX_X - 1 = 66` and
`1 <= ball_y <= MAX_Y = 24`; once four iterations have run, that is after the first physics
iteration, `ball_x >= 1`. -/
theorem C19_ball_in_arena (keys : List Key) :
    MAX_X - 1 = 66 ∧ MAX_Y = 24 ∧
    ∃ r s, run initial keys = some (r, s) ∧
      0 ≤ s.ball_x ∧ s.ball_x ≤ MAX_X - 1 ∧ 1 ≤ s.ball_y ∧ s.ball_y ≤ MAX_Y ∧
      (4 ≤ keys.length → 1 ≤ s.ball_x) := by
  obtain ⟨r, s, h, hi, -⟩ := run_total keys initial inv_initial
  refine ⟨by decide, rfl, r, s, h, hi.1, hi.2.1, hi.2.2.1, hi.2.2.2.1, ?_⟩
  intro hl
  exact run_leaves_column keys 0 initial r s inv_initial (Or.inl early_initial) h
    (by omega)

/-! ## Sprite reads -/

theorem inv_of_run (keys : List Key) (r : GameResult) (s : State)
    (h : run initial keys = some (r, s)) : Inv s := by
  obtain ⟨r1, s1, h1, hi, -⟩ := run_total keys initial inv_initial
  rw [h] at h1
  simp only [Option.some.injEq, Prod.mk.injEq] at h1
  rw [h1.2]; exact hi

/-- C20 (sprite lookups are in bounds). The loop run from the initial state never takes the
undefined branch: it returns for every list of keys. And in every playing state it reaches
on which the physics fires, both resolvers return, and whenever the guards that precede the
read `block_sprites[next_y][next_x]` pass (not at a wall, or not at the ceiling or paddle,
and `next_y < 8`, `next_x < 68`), also `0 <= next_y` and `0 <= next_x` hold and the cell read
records its owner `(next_y / 4, next_x / 17)`, set by `init_blocks`. -/
theorem C20_sprite_lookups_in_bounds (keys : List Key) (s : State)
    (h : run initial keys = some (GameResult.Playing, s)) (hd : s.delay_count ≥ BALL_DELAY) :
    (∀ keys1, ∃ r s1, run initial keys1 = some (r, s1)) ∧
    ∃ dx dy g1 g2,
      get_direction_x (init_blocks s.game) s.x_direction (s.ball_y + s.y_direction)
        (s.ball_x + s.x_direction) = some (dx, g1) ∧
      get_direction_y g1 s.y_direction (s.ball_y + s.y_direction)
        (s.ball_x + s.x_direction) s.pad_x = some (dy, g2) ∧
      (¬ (s.ball_x + s.x_direction ≥ MAX_X ∨ s.ball_x + s.x_direction ≤ 0) →
        s.ball_y + s.y_direction < (BLOCK_ROWS * BLOCK_H : Nat) →
        s.ball_x + s.x_direction < (BLOCK_COLS * BLOCK_W : Nat) →
        0 ≤ s.ball_y + s.y_direction ∧ 0 ≤ s.ball_x + s.x_direction ∧
        ∃ cell, sprite_at (init_blocks s.game) (s.ball_y + s.y_direction)
            (s.ball_x + s.x_direction) = some cell ∧
          cell.grid_member = some ((s.ball_y + s.y_direction).toNat / BLOCK_H,
            (s.ball_x + s.x_direction).toNat / BLOCK_W)) ∧
      (¬ (s.ball_y + s.y_direction ≤ 0 ∨ (s.ball_y + s.y_direction = PAD_Y ∧
          s.ball_x + s.x_direction ≥ s.pad_x ∧ s.ball_x + s.x_direction ≤ s.pad_x + 3)) →
        s.ball_y + s.y_direction < (BLOCK_ROWS * BLOCK_H : Nat) →
        s.ball_x + s.x_direction < (BLOCK_COLS * BLOCK_W : Nat) →
        0 ≤ s.ball_y + s.y_direction ∧ 0 ≤ s.ball_x + s.x_direction ∧
        ∃ cell, sprite_at g1 (s.ball_y + s.y_direction) (s.ball_x + s.x_direction) = some cell ∧
          cell.grid_member = some ((s.ball_y + s.y_direction).toNat / BLOCK_H,
            (s.ball_x + s.x_direction).toNat / BLOCK_W)) ∧
      ∃ r s1, tick Key.other s = some (r, s1) := by
  have hi := inv_of_run keys _ s h
  obtain ⟨dx, dy, g1, g2, ex, ey, fx, -, -, -, -, -, -, -⟩ := physics_inv s hi
  obtain ⟨hx0, hx1, hy0, hy1, hdx, hdy, hearly, hown⟩ := hi
  have hown1 : Owned g1 := owned_of_sprites _ _ hown fx.1
  have hny : 0 ≤ s.ball_y + s.y_direction := next_y_nonneg _ _ hy0 hdy
  have hnx : 0 ≤ s.ball_x + s.x_direction :=
    next_x_nonneg _ _ hx0 hdx (fun h0 => (hearly h0).1)
  have cellfact : ∀ g : Game, Owned g →
      s.ball_y + s.y_direction < (BLOCK_ROWS * BLOCK_H : Nat) →
      s.ball_x + s.x_direction < (BLOCK_COLS * BLOCK_W : Nat) →
      ∃ cell, sprite_at g (s.ball_y + s.y_direction) (s.ball_x + s.x_direction) = some cell ∧
        cell.grid_member = some ((s.ball_y + s.y_direction).toNat / BLOCK_H,
          (s.ball_x + s.x_direction).toNat / BLOCK_W) := by
    intro g hg hy hx
    simp only [BLOCK_ROWS, BLOCK_H, BLOCK_COLS, BLOCK_W] at hy hx ⊢
    norm_num at hy hx
    refine ⟨_, sprite_at_eq g _ _ hny hy hnx hx, ?_⟩
    exact hg _ _ (by omega) (by omega)
  refine ⟨fun keys1 => ?_, dx, dy, g1, g2, ex, ey, ?_, ?_, ?_⟩
  · obtain ⟨r, s1, h1, -, -⟩ := run_total keys1 initial inv_initial
    exact ⟨r, s1, h1⟩
  · intro _ hy hx
    exact ⟨hny, hnx, cellfact _ hown hy hx⟩
  · intro _ hy hx
    exact ⟨hny, hnx, cellfact _ hown1 hy hx⟩
  · rw [tick_physics Key.other s dx dy g1 g2 hd ex ey]
    by_cases h0 : dy = 0
    · rw [if_pos h0]; exact ⟨_, _, rfl⟩
    · rw [if_neg h0]; exact ⟨(finish_tick Key.other _).1, (finish_tick Key.other _).2, rfl⟩

/-- C20, checked on the state after the three iterations with keys left, left, right, on
which the physics fires with the prospective cell `(9, 1)`. -/
theorem C20_sprite_lookups_in_bounds_witness :
    run initial [Key.left, Key.left, Key.right] = some (GameResult.Playing, after_three) ∧
    after_three.delay_count ≥ BALL_DELAY ∧
    ∃ r s1, run initial [Key.left, Key.left, Key.right, Key.other] = some (r, s1) :=
  ⟨rfl, by decide,
    (C20_sprite_lookups_in_bounds [Key.left, Key.left, Key.right] after_three rfl
      (by decide)).1 _⟩

/-! ## Input and physics -/

set_option maxRecDepth 100000 in
/-- C15 as stated fails. After `keys_to_paddle_row` the physics fires with the prospective
cell `(23, 15)` and the paddle at `11`, one cell short. With the key right on that iteration
the paddle moves to `12`, which would cover column `15`; yet the ball is not bounced: it
moves on to row `23` with `y_direction` still `1`, since line 294 tests it against the paddle
position `11` of before the input, and the input is read only at line 320. -/
theorem C15_input_before_physics_counterexample :
    (run initial keys_to_paddle_row).map
        (fun p => (p.1, p.2.ball_x, p.2.ball_y, p.2.pad_x, p.2.y_direction, p.2.delay_count))
      = some (GameResult.Playing, 14, 22, 11, 1, 4) ∧
    (run initial (keys_to_paddle_row ++ [Key.right])).map
        (fun p => (p.1, p.2.ball_x, p.2.ball_y, p.2.pad_x, p.2.y_direction))
      = some (GameResult.Playing, 15, 23, 12, 1) ∧
    11 + get_keypress Key.right 11 = 12 ∧
    get_direction_y (built intact) 1 23 15 12 = some (-1, built intact) ∧
    get_direction_y (built intact) 1 23 15 11 = some (1, built intact) := by
  refine ⟨by rfl, by rfl, by decide, ?_, ?_⟩
  · exact get_direction_y_flip _ _ _ _ _ (Or.inr ⟨rfl, by decide, by decide⟩)
  · have h1 : ¬ ((23 : Int) ≤ 0 ∨ ((23 : Int) = PAD_Y ∧ (15 : Int) ≥ 11 ∧ (15 : Int) ≤ 11 + 3)) := by
      decide
    rw [get_direction_y_low (built intact) 1 23 15 11 h1 (by decide), if_neg (by decide)]

/-- C15, amended (input after physics). On a firing iteration on which both resolvers return,
`get_direction_y` is called with the paddle position `pad_x` the iteration started with;
the key of the iteration is applied after the resolvers and the win check and only when the
game goes on. So the outcome, the ball position, both directions and the globals after the
iteration are the same for every key, and only the paddle position and delay timer of a
continuing game depend on the key. -/
theorem C15_input_after_physics (key : Key) (s : State) (dx dy : Int) (g1 g2 : Game)
    (hd : s.delay_count ≥ BALL_DELAY)
    (hx : get_direction_x (init_blocks s.game) s.x_direction (s.ball_y + s.y_direction)
      (s.ball_x + s.x_direction) = some (dx, g1))
    (hy : get_direction_y g1 s.y_direction (s.ball_y + s.y_direction)
      (s.ball_x + s.x_direction) s.pad_x = some (dy, g2)) :
    ∃ r s1, tick key s = some (r, s1) ∧
      (dy = 0 ↔ r = GameResult.Lost) ∧ (dy ≠ 0 → s1.y_direction = dy) ∧ s1.game = g2 ∧
      (r = GameResult.Playing → s1.pad_x = s.pad_x + get_keypress key s.pad_x) ∧
      (r ≠ GameResult.Playing → s1.pad_x = s.pad_x) ∧
      ∀ key2, ∃ s2, tick key2 s = some (r, s2) ∧
        s2.ball_x = s1.ball_x ∧ s2.ball_y = s1.ball_y ∧ s2.x_direction = s1.x_direction ∧
        s2.y_direction = s1.y_direction ∧ s2.game = s1.game := by
  by_cases h0 : dy = 0
  · have ht : ∀ k : Key, tick k s = some (GameResult.Lost,
        { s with
          ball_x := if dx = s.x_direction then s.ball_x + s.x_direction else s.ball_x,
          x_direction := dx, game := g2 }) := by
      intro k
      rw [tick_physics k s dx dy g1 g2 hd hx hy, if_pos h0]
    refine ⟨GameResult.Lost, _, ht key, ?_, ?_, rfl, ?_, ?_, ?_⟩
    · exact ⟨fun _ => rfl, fun _ => h0⟩
    · intro h; exact absurd h0 h
    · intro h; exact GameResult.noConfusion h
    · intro _; rfl
    · intro key2
      exact ⟨_, ht key2, rfl, rfl, rfl, rfl, rfl⟩
  · have hw : ∀ k : Key, ∀ m : State,
        (finish_tick k m).1 = (if game_won m.game.blocks ≠ 0 then GameResult.Won
          else GameResult.Playing) ∧
        ((finish_tick k m).1 = GameResult.Playing →
          (finish_tick k m).2.pad_x = m.pad_x + get_keypress k m.pad_x) ∧
        ((finish_tick k m).1 ≠ GameResult.Playing → (finish_tick k m).2.pad_x = m.pad_x) := by
      intro k m
      unfold finish_tick
      by_cases hg : game_won m.game.blocks ≠ 0
      · rw [if_pos hg, if_pos hg]
        exact ⟨rfl, fun h => GameResult.noConfusion h, fun _ => rfl⟩
      · rw [if_neg hg, if_neg hg]
        exact ⟨rfl, fun _ => rfl, fun h => absurd rfl h⟩
    have ht : ∀ k : Key, tick k s = some (finish_tick k
        { s with
          ball_x := if dx = s.x_direction then s.ball_x + s.x_direction else s.ball_x,
          ball_y := if dy = s.y_direction then s.ball_y + s.y_direction else s.ball_y,
          x_direction := dx, y_direction := dy, delay_count := 0, game := g2 }) := by
      intro k
      rw [tick_physics k s dx dy g1 g2 hd hx hy, if_neg h0]
    generalize hm : ({ s with
        ball_x := if dx = s.x_direction then s.ball_x + s.x_direction else s.ball_x,
        ball_y := if dy = s.y_direction then s.ball_y + s.y_direction else s.ball_y,
        x_direction := dx, y_direction := dy, delay_count := 0, game := g2 } : State) = m at ht
    have hmp : m.pad_x = s.pad_x := by rw [← hm]
    have hmd : m.y_direction = dy := by rw [← hm]
    have hmg : m.game = g2 := by rw [← hm]
    obtain ⟨hne, hbx, hby, hdx1, hdy1⟩ := finish_tick_ball key m
    refine ⟨(finish_tick key m).1, (finish_tick key m).2, ht key, ?_, ?_, ?_, ?_, ?_, ?_⟩
    · exact ⟨fun h => absurd h h0, fun h => absurd h hne⟩
    · intro _; rw [hdy1, hmd]
    · rw [finish_tick_game, hmg]
    · intro h; rw [(hw key m).2.1 h, hmp]
    · intro h; rw [(hw key m).2.2 h, hmp]
    · intro key2
      obtain ⟨-, hbx2, hby2, hdx2, hdy2⟩ := finish_tick_ball key2 m
      refine ⟨(finish_tick key2 m).2, ?_, ?_, ?_, ?_, ?_, ?_⟩
      · rw [ht key2]
        have e : (finish_tick key2 m).1 = (finish_tick key m).1 := by
          rw [(hw key2 m).1, (hw key m).1]
        rw [← e]
      · rw [hbx, hbx2]
      · rw [hby, hby2]
      · rw [hdx1, hdx2]
      · rw [hdy1, hdy2]
      · rw [finish_tick_game, finish_tick_game]

/-- C15 amended, checked on the state after three iterations, where the physics fires with
the prospective cell `(9, 1)`: with the key left the paddle goes from `19` to `18` after the
ball has moved. -/
theorem C15_input_after_physics_witness :
    ∃ r s1, tick Key.left after_three = some (r, s1) ∧ s1.y_direction = 1 ∧
      s1.game = init_blocks after_three.game ∧
      (r = GameResult.Playing → s1.pad_x = 19 + get_keypress Key.left 19) := by
  obtain ⟨r, s1, h, -, hdy, hg, hp, -, -⟩ :=
    C15_input_after_physics Key.left after_three 1 1 (init_blocks after_three.game)
      (init_blocks after_three.game) (by decide) (by rfl) (by rfl)
  exact ⟨r, s1, h, hdy (by decide), hg, hp⟩

/-! ## Blocks broken in one iteration -/

theorem effect_one (g g1 : Game) (h : Effect g g1) : ChangesAtMostOne g.blocks g1.blocks := by
  intro i1 j1 i2 j2 h1 h2
  rcases h.2 with e | ⟨i, j, -, e⟩
  · rw [e] at h1; exact absurd rfl h1
  · rw [e] at h1 h2
    unfold set_block at h1 h2
    by_cases c1 : i1 = i ∧ j1 = j
    · by_cases c2 : i2 = i ∧ j2 = j
      · exact ⟨c1.1.trans c2.1.symm, c1.2.trans c2.2.symm⟩
      · rw [if_neg c2] at h2; exact absurd rfl h2
    · rw [if_neg c1] at h1; exact absurd rfl h1

theorem effect_count (g g1 : Game) (h : Effect g g1) :
    broken_count g1.blocks ≤ broken_count g.blocks + 1 := by
  rcases h.2 with e | ⟨i, j, -, e⟩
  · rw [e]; exact Nat.le_succ _
  · rw [e]
    unfold broken_count
    have hsub : Finset.filter (fun p : Fin 2 × Fin 4 => set_block g.blocks i j 1 p.1.val p.2.val ≠ 0)
          Finset.univ
        ⊆ Finset.filter (fun p : Fin 2 × Fin 4 => g.blocks p.1.val p.2.val ≠ 0) Finset.univ
          ∪ Finset.filter (fun p : Fin 2 × Fin 4 => p.1.val = i ∧ p.2.val = j) Finset.univ := by
      intro p hp
      simp only [Finset.mem_filter, Finset.mem_univ, true_and, Finset.mem_union] at hp ⊢
      by_cases c : p.1.val = i ∧ p.2.val = j
      · exact Or.inr c
      · left
        unfold set_block at hp
        rw [if_neg c] at hp
        exact hp
    have hone : (Finset.filter (fun p : Fin 2 × Fin 4 => p.1.val = i ∧ p.2.val = j)
        Finset.univ).card ≤ 1 := by
      rw [Finset.card_le_one]
      intro a ha b hb
      simp only [Finset.mem_filter, Finset.mem_univ, true_and] at ha hb
      exact Prod.ext (Fin.ext (ha.1.trans hb.1.symm)) (Fin.ext (ha.2.trans hb.2.symm))
    calc _ ≤ _ := Finset.card_le_card hsub
      _ ≤ _ := Finset.card_union_le _ _
      _ ≤ _ := Nat.add_le_add_left hone _

theorem effect_trans_count (g g1 g2 : Game) (h1 : Effect g g1) (h2 : Effect g1 g2) :
    broken_count g2.blocks ≤ broken_count g.blocks + 2 := by
  have a := effect_count g g1 h1
  have b := effect_count g1 g2 h2
  omega

theorem sprite_at_some (g : Game) (y x : Int) (cell : BlockMap)
    (h : sprite_at g y x = some cell) :
    0 ≤ y ∧ y < 8 ∧ 0 ≤ x ∧ x < 68 ∧ cell = g.block_sprites y.toNat x.toNat := by
  unfold sprite_at at h
  by_cases c : 0 ≤ y ∧ y < (BLOCK_ROWS * BLOCK_H : Nat) ∧ 0 ≤ x ∧ x < (BLOCK_COLS * BLOCK_W : Nat)
  · rw [if_pos c] at h
    simp only [Option.some.injEq] at h
    simp only [BLOCK_ROWS, BLOCK_H, BLOCK_COLS, BLOCK_W] at c
    norm_num at c
    exact ⟨c.1, c.2.1, c.2.2.1, c.2.2.2, h.symm⟩
  · rw [if_neg c] at h
    exact absurd h (by simp)

/-- When the block-edge branch fires, the cell is inside the grid, records an owner whose
flag was `0`, and the only change is the `1` stored in that flag. -/
theorem hit_block_fires (g : Game) (edge : Char) (d y x : Int) (r : Int × Game)
    (h : hit_block g edge d y x = some (some r)) :
    ∃ i j, 0 ≤ y ∧ y < 8 ∧ 0 ≤ x ∧ x < 68 ∧
      (g.block_sprites y.toNat x.toNat).grid_member = some (i, j) ∧ g.blocks i j = 0 ∧
      r.2 = { g with blocks := set_block g.blocks i j 1 } := by
  unfold hit_block at h
  cases hs : sprite_at g y x with
  | none => simp [hs] at h
  | some cell =>
    simp only [hs] at h
    obtain ⟨b1, b2, b3, b4, hcell⟩ := sprite_at_some g y x cell hs
    cases ho : cell.grid_member with
    | none => simp [ho] at h
    | some p =>
      obtain ⟨i, j⟩ := p
      simp only [ho] at h
      by_cases hc : g.blocks i j = 0 ∧ cell.sprite = edge
      · rw [if_pos hc] at h
        simp only [Option.some.injEq] at h
        subst h
        rw [hcell] at ho
        exact ⟨i, j, b1, b2, b3, b4, ho, hc.1, rfl⟩
      · rw [if_neg hc] at h
        simp at h

theorem get_direction_x_fires (g : Game) (d y x : Int) (r : Int × Game)
    (h : get_direction_x g d y x = some r) :
    r.2 = g ∨ ∃ i j, 0 ≤ y ∧ y < 8 ∧ 0 ≤ x ∧ x < 68 ∧
      (g.block_sprites y.toNat x.toNat).grid_member = some (i, j) ∧ g.blocks i j = 0 ∧
      r.2 = { g with blocks := set_block g.blocks i j 1 } := by
  unfold get_direction_x at h
  split_ifs at h with h1 h2
  · simp only [Option.some.injEq] at h; subst h; exact Or.inl rfl
  · cases hh : hit_block g '|' d y x with
    | none => simp [hh] at h
    | some o =>
      cases o with
      | none => simp only [hh, Option.some.injEq] at h; subst h; exact Or.inl rfl
      | some r1 =>
        simp only [hh, Option.some.injEq] at h; subst h
        exact Or.inr (hit_block_fires g _ d y x r1 hh)
  · simp only [Option.some.injEq] at h; subst h; exact Or.inl rfl

/-- On a cell inside the grid whose recorded owner is broken, `get_direction_y` changes
nothing. -/
theorem get_direction_y_broken (g : Game) (d y x p : Int) (i j : Nat) (r : Int × Game)
    (hy0 : 0 ≤ y) (hy : y < 8) (hx0 : 0 ≤ x) (hx : x < 68)
    (ho : (g.block_sprites y.toNat x.toNat).grid_member = some (i, j))
    (hb : g.blocks i j ≠ 0) (h : get_direction_y g d y x p = some r) : r.2 = g := by
  by_cases hw : y ≤ 0
  · rw [get_direction_y_flip g d y x p (Or.inl hw)] at h
    simp only [Option.some.injEq] at h
    rw [← h]
  · rw [get_direction_y_region g d y x p i j (by omega) hy hx0 hx ho, if_neg (fun c => hb c.1)] at h
    simp only [Option.some.injEq] at h
    rw [← h]

/-- The two resolver calls of one iteration, on the same prospective cell, together store at
most one flag. -/
theorem resolvers_effect (g : Game) (d1 d2 y x p : Int) (r1 r2 : Int × Game)
    (h1 : get_direction_x g d1 y x = some r1) (h2 : get_direction_y r1.2 d2 y x p = some r2) :
    (r1.2.blocks = g.blocks ∨ r2.2.blocks = r1.2.blocks) ∧ Effect g r2.2 := by
  rcases get_direction_x_fires g d1 y x r1 h1 with e | ⟨i, j, b1, b2, b3, b4, ho, hb, e⟩
  · refine ⟨Or.inl (by rw [e]), ?_⟩
    have := get_direction_y_effect r1.2 d2 y x p r2 h2
    rw [e] at this
    exact this
  · have ho1 : (r1.2.block_sprites y.toNat x.toNat).grid_member = some (i, j) := by
      rw [e]; exact ho
    have hb1 : r1.2.blocks i j ≠ 0 := by
      rw [e]
      show set_block g.blocks i j 1 i j ≠ 0
      unfold set_block
      rw [if_pos ⟨rfl, rfl⟩]
      decide
    have e2 := get_direction_y_broken r1.2 d2 y x p i j r2 b1 b2 b3 b4 ho1 hb1 h2
    refine ⟨Or.inr (by rw [e2]), ?_⟩
    rw [e2]
    exact get_direction_x_effect g d1 y x r1 h1

/-- The effect of a whole iteration on the globals, through the grid rebuilt at its top. -/
theorem tick_effect (key : Key) (s : State) (r : GameResult) (s1 : State)
    (h : tick key s = some (r, s1)) : Effect (init_blocks s.game) s1.game := by
  rcases tick_cases key s r s1 h with ⟨-, e⟩ | ⟨-, dx, dy, g1, g2, ex, ey, hc⟩
  · have hg := finish_tick_game key { s with game := init_blocks s.game }
    rw [← e] at hg
    rw [hg]
    exact effect_refl _
  · have he := (resolvers_effect _ _ _ _ _ _ (dx, g1) (dy, g2) ex ey).2
    rcases hc with ⟨-, -, e⟩ | ⟨-, e⟩
    · rw [e]; exact he
    · have hg := finish_tick_game key
        { s with
          ball_x := if dx = s.x_direction then s.ball_x + s.x_direction else s.ball_x,
          ball_y := if dy = s.y_direction then s.ball_y + s.y_direction else s.ball_y,
          x_direction := dx, y_direction := dy, delay_count := 0, game := g2 }
      rw [← e] at hg
      rw [hg]
      exact he

/-- C16 (tie-break bound). A call of `get_direction_x` and a call of `get_direction_y` each
change at most one block flag and raise the number of broken blocks by at most one; so a
whole loop iteration breaks at most two blocks. -/
theorem C16_tie_break_bound :
    (∀ g d y x r, get_direction_x g d y x = some r →
      ChangesAtMostOne g.blocks r.2.blocks ∧
        broken_count r.2.blocks ≤ broken_count g.blocks + 1) ∧
    (∀ g d y x p r, get_direction_y g d y x p = some r →
      ChangesAtMostOne g.blocks r.2.blocks ∧
        broken_count r.2.blocks ≤ broken_count g.blocks + 1) ∧
    (∀ key s r s1, tick key s = some (r, s1) →
      broken_count s1.game.blocks ≤ broken_count s.game.blocks + 2) := by
  refine ⟨?_, ?_, ?_⟩
  · intro g d y x r h
    have he := get_direction_x_effect g d y x r h
    exact ⟨effect_one _ _ he, effect_count _ _ he⟩
  · intro g d y x p r h
    have he := get_direction_y_effect g d y x p r h
    exact ⟨effect_one _ _ he, effect_count _ _ he⟩
  · intro key s r s1 h
    have he := effect_count _ _ (tick_effect key s r s1 h)
    have e : (init_blocks s.game).blocks = s.game.blocks := rfl
    rw [e] at he
    omega

set_option maxRecDepth 10000 in
/-- C16, checked at the cell `(1, 17)`, the left edge of block `(0, 1)`, on the grid of
intact blocks: the call of `get_direction_x` breaks that block and no other. -/
theorem C16_tie_break_bound_witness :
    get_direction_x (built intact) 1 1 17
      = some (-1, { built intact with blocks := set_block intact 0 1 1 }) ∧
    ChangesAtMostOne (built intact).blocks (set_block intact 0 1 1) ∧
    broken_count (set_block intact 0 1 1) ≤ broken_count (built intact).blocks + 1 :=
  ⟨by rfl, C16_tie_break_bound.1 (built intact) 1 1 17
    (-1, { built intact with blocks := set_block intact 0 1 1 }) (by rfl)⟩

/-- C18 (one break per iteration). Called on the same prospective cell, with
`get_direction_y` running on the globals `get_direction_x` has left, the two resolvers never
both store a flag: one of them leaves `blocks` as it found it, at most one flag differs
after both, and the number of broken blocks rises by at most one. The same holds for a whole
loop iteration. -/
theorem C18_one_break_per_tick :
    (∀ g d1 d2 y x p r1 r2, get_direction_x g d1 y x = some r1 →
      get_direction_y r1.2 d2 y x p = some r2 →
      (r1.2.blocks = g.blocks ∨ r2.2.blocks = r1.2.blocks) ∧
        ChangesAtMostOne g.blocks r2.2.blocks ∧
        broken_count r2.2.blocks ≤ broken_count g.blocks + 1) ∧
    (∀ key s r s1, tick key s = some (r, s1) →
      ChangesAtMostOne s.game.blocks s1.game.blocks ∧
        broken_count s1.game.blocks ≤ broken_count s.game.blocks + 1) := by
  refine ⟨?_, ?_⟩
  · intro g d1 d2 y x p r1 r2 h1 h2
    obtain ⟨ho, he⟩ := resolvers_effect g d1 d2 y x p r1 r2 h1 h2
    exact ⟨ho, effect_one _ _ he, effect_count _ _ he⟩
  · intro key s r s1 h
    have he := tick_effect key s r s1 h
    exact ⟨effect_one (init_blocks s.game) s1.game he, effect_count (init_blocks s.game) s1.game he⟩

set_option maxRecDepth 10000 in
/-- C18, checked at the cell `(1, 17)` on the grid of intact blocks: `get_direction_x`
breaks block `(0, 1)`, and `get_direction_y`, called next on the same cell, changes
nothing. -/
theorem C18_one_break_per_tick_witness :
    get_direction_x (built intact) 1 1 17
      = some (-1, { built intact with blocks := set_block intact 0 1 1 }) ∧
    get_direction_y { built intact with blocks := set_block intact 0 1 1 } (-1) 1 17 20
      = some (-1, { built intact with blocks := set_block intact 0 1 1 }) ∧
    ChangesAtMostOne (built intact).blocks (set_block intact 0 1 1) ∧
    broken_count (set_block intact 0 1 1) ≤ broken_count (built intact).blocks + 1 :=
  ⟨by rfl, by rfl,
    (C18_one_break_per_tick.1 (built intact) 1 (-1) 1 17 20
      (-1, { built intact with blocks := set_block intact 0 1 1 })
      (-1, { built intact with blocks := set_block intact 0 1 1 }) (by rfl) (by rfl)).2⟩

end Breakout
